import Mathlib

/- Verification of the word-puzzle engine in src/src/App.tsx.
   Strings are modeled as `List Char`; JavaScript indexing `a[i]`
   (which may yield `undefined`) is modeled by `l[i]?`, or by
   `l.getD i d` with an explicit default; `Math.floor(Math.random() * n)`
   is modeled as `r % n` for an oracle value `r` drawn from a function
   `Nat → Nat` supplied as an explicit parameter, one independent oracle
   per random call site, indexed by the loop iteration. -/

namespace WordPuzzles

inductive Score where
  | correct
  | present
  | absent
deriving DecidableEq, Repr

/- JavaScript `arr[i] = c` writes in place when `i < arr.length` and
   extends the array otherwise, with holes read back as `undefined`;
   the character `'?'` stands for `undefined` (it occurs in no word). -/
def jsSet (l : List Char) (i : Nat) (c : Char) : List Char :=
  if i < l.length then l.set i c
  else l ++ List.replicate (i - l.length) '?' ++ [c]

/- scoreWordleGuess, App.tsx lines 125-154.  `scoreCells` pairs every
   answer position `i` with the guess letter at `i` (`none` when the
   guess is shorter, i.e. JS `undefined`).  The first pass of the source
   marks position `i` correct exactly when `guessArr[i] === answerArr[i]`
   and tallies the answer letters of the remaining positions
   (`remainingCounts`); the second pass walks the positions again,
   re-testing the same exact-match condition instead of reading back
   `result[i] === "correct"`, marks `present` while a tallied occurrence
   remains (decrementing it) and `absent` otherwise. -/
def scoreCells (guess answer : List Char) : List (Option Char × Char) :=
  (List.range answer.length).map (fun i => (guess[i]?, answer.getD i ' '))

def scoreSecondPass : List (Option Char × Char) → List Char → List Score
  | [], _ => []
  | (g, a) :: rest, rem =>
    if g = some a then Score.correct :: scoreSecondPass rest rem
    else
      match g with
      | some ch =>
        if 0 < rem.count ch then Score.present :: scoreSecondPass rest (rem.erase ch)
        else Score.absent :: scoreSecondPass rest rem
      | none => Score.absent :: scoreSecondPass rest rem

def scoreRemaining (guess answer : List Char) : List Char :=
  ((scoreCells guess answer).filter (fun c => !decide (c.1 = some c.2))).map (fun c => c.2)

def scoreWordleGuess (guess answer : List Char) : List Score :=
  scoreSecondPass (scoreCells guess answer) (scoreRemaining guess answer)

/- Structural equations for `scoreCells`. -/
theorem scoreCells_nil_right (g : List Char) : scoreCells g [] = [] := rfl

theorem scoreCells_cons (x y : Char) (g a : List Char) :
    scoreCells (x :: g) (y :: a) = (some x, y) :: scoreCells g a := by
  unfold scoreCells
  rw [List.length_cons, List.range_succ_eq_map, List.map_cons, List.map_map]
  refine congrArg₂ _ (by simp) (List.map_congr_left ?_)
  intro i _
  simp [List.getD_cons_succ]

theorem scoreCells_cons_nil (y : Char) (a : List Char) :
    scoreCells [] (y :: a) = ((none : Option Char), y) :: scoreCells [] a := by
  unfold scoreCells
  rw [List.length_cons, List.range_succ_eq_map, List.map_cons, List.map_map]
  refine congrArg₂ _ (by simp) (List.map_congr_left ?_)
  intro i _
  simp [List.getD_cons_succ]

theorem scoreSecondPass_length (cells : List (Option Char × Char)) :
    ∀ rem, (scoreSecondPass cells rem).length = cells.length := by
  induction cells with
  | nil => intro rem; rfl
  | cons c rest ih =>
    intro rem
    obtain ⟨g, a⟩ := c
    by_cases h : g = some a
    · simp [scoreSecondPass, h, ih]
    · cases g with
      | some ch =>
        by_cases hc : 0 < rem.count ch
        · simp [scoreSecondPass, h, hc, ih]
        · simp [scoreSecondPass, h, hc, ih]
      | none => simp [scoreSecondPass, h, ih]

theorem scoreCells_length (g a : List Char) : (scoreCells g a).length = a.length := by
  simp [scoreCells]

theorem scoreWordleGuess_length (g a : List Char) :
    (scoreWordleGuess g a).length = a.length := by
  rw [scoreWordleGuess, scoreSecondPass_length, scoreCells_length]

theorem scoreSecondPass_correct_cons (g : Option Char) (a : Char)
    (rest : List (Option Char × Char)) (rem : List Char) (h : g = some a) :
    scoreSecondPass ((g, a) :: rest) rem = Score.correct :: scoreSecondPass rest rem := by
  simp [scoreSecondPass, h]

theorem scoreSecondPass_present_cons (ch a : Char) (rest : List (Option Char × Char))
    (rem : List Char) (h : ch ≠ a) (hc : 0 < rem.count ch) :
    scoreSecondPass ((some ch, a) :: rest) rem
      = Score.present :: scoreSecondPass rest (rem.erase ch) := by
  simp [scoreSecondPass, h, hc]

theorem scoreSecondPass_absent_cons (ch a : Char) (rest : List (Option Char × Char))
    (rem : List Char) (h : ch ≠ a) (hc : ¬ 0 < rem.count ch) :
    scoreSecondPass ((some ch, a) :: rest) rem = Score.absent :: scoreSecondPass rest rem := by
  simp [scoreSecondPass, h, hc]

theorem scoreSecondPass_none_cons (a : Char) (rest : List (Option Char × Char))
    (rem : List Char) :
    scoreSecondPass (((none : Option Char), a) :: rest) rem
      = Score.absent :: scoreSecondPass rest rem := by
  simp [scoreSecondPass]

/- FeedbackRow accounting for claim C1.  `countScoredAs guess row L`
   counts the row entries marked correct or present at positions where
   the guessed letter is `L`. -/
def countScoredAs (guess : List Char) (row : List Score) (L : Char) : Nat :=
  ((guess.zip row).filter
    (fun p => decide (p.1 = L) &&
      (decide (p.2 = Score.correct) || decide (p.2 = Score.present)))).length

theorem countScoredAs_nil (row : List Score) (L : Char) :
    countScoredAs [] row L = 0 := by
  simp [countScoredAs]

theorem countScoredAs_cons (x : Char) (s : Score) (g : List Char) (row : List Score)
    (L : Char) :
    countScoredAs (x :: g) (s :: row) L
      = (if x = L ∧ (s = Score.correct ∨ s = Score.present) then 1 else 0)
        + countScoredAs g row L := by
  unfold countScoredAs
  rw [List.zip_cons_cons, List.filter_cons]
  by_cases h1 : x = L <;> by_cases h2 : s = Score.correct <;> by_cases h3 : s = Score.present <;>
    simp [h1, h2, h3] <;> omega

theorem filterCL_cons (L : Char) (c1 : Option Char) (c2 : Char)
    (rest : List (Option Char × Char)) :
    (((c1, c2) :: rest).filter (fun c => decide (c.1 = some c.2) && decide (c.2 = L))).length
      = (if c1 = some c2 ∧ c2 = L then 1 else 0)
        + ((rest.filter (fun c => decide (c.1 = some c.2) && decide (c.2 = L))).length) := by
  rw [List.filter_cons]
  by_cases h2 : c2 = L
  · subst h2
    by_cases h1 : c1 = some c2 <;> simp [h1] <;> omega
  · by_cases h1 : c1 = some c2 <;> simp [h1, h2]

theorem countScoredAs_le_aux (L : Char) :
    ∀ (g a rem : List Char), g.length = a.length →
      countScoredAs g (scoreSecondPass (scoreCells g a) rem) L
      ≤ ((scoreCells g a).filter
          (fun c => decide (c.1 = some c.2) && decide (c.2 = L))).length + rem.count L := by
  intro g
  induction g with
  | nil =>
    intro a rem _
    simp [countScoredAs]
  | cons x g2 ih =>
    intro a rem h
    cases a with
    | nil => simp at h
    | cons y a2 =>
      simp only [List.length_cons, Nat.succ.injEq] at h
      rw [scoreCells_cons]
      by_cases hxy : x = y
      · rw [scoreSecondPass_correct_cons _ _ _ _ (by rw [hxy]), countScoredAs_cons,
          filterCL_cons]
        have hrec := ih a2 rem h
        by_cases hxL : x = L
        · rw [if_pos (show x = L ∧ (Score.correct = Score.correct ∨ Score.correct = Score.present)
              from ⟨hxL, Or.inl rfl⟩),
            if_pos (show some x = some y ∧ y = L from ⟨by rw [hxy], by rw [← hxy]; exact hxL⟩)]
          omega
        · rw [if_neg (show ¬ (x = L ∧ (Score.correct = Score.correct ∨
                Score.correct = Score.present)) from fun hh => hxL hh.1),
            if_neg (show ¬ (some x = some y ∧ y = L) from
              fun hh => hxL (by rw [hxy]; exact hh.2))]
          omega
      · by_cases hc : 0 < rem.count x
        · rw [scoreSecondPass_present_cons _ _ _ _ hxy hc, countScoredAs_cons, filterCL_cons,
            if_neg (show ¬ (some x = some y ∧ y = L) from
              fun hh => hxy (Option.some.inj hh.1))]
          by_cases hxL : x = L
          · subst hxL
            have hrec := ih a2 (rem.erase x) h
            rw [List.count_erase_self] at hrec
            rw [if_pos (show x = x ∧ (Score.present = Score.correct ∨
                Score.present = Score.present) from ⟨rfl, Or.inr rfl⟩)]
            omega
          · have hrec := ih a2 (rem.erase x) h
            rw [List.count_erase_of_ne (fun hh => hxL hh.symm)] at hrec
            rw [if_neg (show ¬ (x = L ∧ (Score.present = Score.correct ∨
                Score.present = Score.present)) from fun hh => hxL hh.1)]
            omega
        · rw [scoreSecondPass_absent_cons _ _ _ _ hxy hc, countScoredAs_cons, filterCL_cons,
            if_neg (show ¬ (x = L ∧ (Score.absent = Score.correct ∨
              Score.absent = Score.present)) from
              fun hh => by rcases hh.2 with h2 | h2 <;> exact Score.noConfusion h2),
            if_neg (show ¬ (some x = some y ∧ y = L) from
              fun hh => hxy (Option.some.inj hh.1))]
          have hrec := ih a2 rem h
          omega

theorem scoreRemaining_count (g a : List Char) (L : Char) :
    (scoreRemaining g a).count L
      = ((scoreCells g a).filter
          (fun c => !decide (c.1 = some c.2) && decide (c.2 = L))).length := by
  unfold scoreRemaining
  generalize scoreCells g a = cells
  induction cells with
  | nil => simp
  | cons c rest ih =>
    obtain ⟨c1, c2⟩ := c
    by_cases h1 : c1 = some c2
    · simpa [List.filter_cons, h1] using ih
    · by_cases h2 : c2 = L
      · subst h2
        simp [List.filter_cons, h1, List.count_cons, ih]
      · simp [List.filter_cons, h1, h2, List.count_cons, ih, Ne.symm h2]

theorem filter_correct_split (L : Char) (cells : List (Option Char × Char)) :
    ((cells.filter (fun c => decide (c.1 = some c.2) && decide (c.2 = L))).length
      + (cells.filter (fun c => !decide (c.1 = some c.2) && decide (c.2 = L))).length)
    = (cells.filter (fun c => decide (c.2 = L))).length := by
  induction cells with
  | nil => simp
  | cons c rest ih =>
    obtain ⟨c1, c2⟩ := c
    by_cases h2 : c2 = L
    · subst h2
      by_cases h1 : c1 = some c2 <;> simp [List.filter_cons, h1] <;> omega
    · by_cases h1 : c1 = some c2 <;> simp [List.filter_cons, h1, h2] <;> omega

theorem scoreCells_filter_snd (L : Char) :
    ∀ (a g : List Char),
      ((scoreCells g a).filter (fun c => decide (c.2 = L))).length = a.count L := by
  intro a
  induction a with
  | nil => intro g; simp [scoreCells]
  | cons y a2 ih =>
    intro g
    have step : ∀ (o : Option Char) (rest : List (Option Char × Char)),
        (((o, y) :: rest).filter (fun c => decide (c.2 = L))).length
          = (rest.filter (fun c => decide (c.2 = L))).length + (if y == L then 1 else 0) := by
      intro o rest
      by_cases h2 : y = L <;> simp [List.filter_cons, h2]
    cases g with
    | nil =>
      rw [scoreCells_cons_nil, step, ih, List.count_cons]
    | cons x g2 =>
      rw [scoreCells_cons, step, ih, List.count_cons]

/-- C1: for every guess and answer of equal length and every letter L, the
feedback row returned by scoreWordleGuess contains at most count(L in answer)
entries marked correct or present at positions where the guessed letter is L. -/
theorem C1_multiset_conservation (guess answer : List Char) (L : Char)
    (hlen : guess.length = answer.length) :
    countScoredAs guess (scoreWordleGuess guess answer) L ≤ answer.count L := by
  have h1 := countScoredAs_le_aux L guess answer (scoreRemaining guess answer) hlen
  rw [scoreRemaining_count, filter_correct_split, scoreCells_filter_snd] at h1
  exact h1

theorem C1_witness :
    (['A','L','E','R','T'] : List Char).length = (['L','A','T','E','R'] : List Char).length
    ∧ countScoredAs ['A','L','E','R','T']
        (scoreWordleGuess ['A','L','E','R','T'] ['L','A','T','E','R']) 'A'
      ≤ (['L','A','T','E','R'] : List Char).count 'A' :=
  ⟨rfl, C1_multiset_conservation ['A','L','E','R','T'] ['L','A','T','E','R'] 'A' rfl⟩

theorem scoreSecondPass_getD_none :
    ∀ (cells : List (Option Char × Char)) (rem : List Char) (i : Nat),
      (cells.getD i ((none : Option Char), ' ')).1 = none →
      (scoreSecondPass cells rem).getD i Score.absent = Score.absent := by
  intro cells
  induction cells with
  | nil => intro rem i _; simp [scoreSecondPass]
  | cons c rest ih =>
    intro rem i hnone
    obtain ⟨g, a⟩ := c
    cases i with
    | zero =>
      simp only [List.getD_cons_zero] at hnone
      subst hnone
      rw [scoreSecondPass_none_cons, List.getD_cons_zero]
    | succ i2 =>
      simp only [List.getD_cons_succ] at hnone
      by_cases h : g = some a
      · rw [scoreSecondPass_correct_cons _ _ _ _ h, List.getD_cons_succ]
        exact ih rem i2 hnone
      · cases g with
        | some ch =>
          by_cases hc : 0 < rem.count ch
          · rw [scoreSecondPass_present_cons _ _ _ _ (fun hh => h (by rw [hh])) hc,
              List.getD_cons_succ]
            exact ih _ i2 hnone
          · rw [scoreSecondPass_absent_cons _ _ _ _ (fun hh => h (by rw [hh])) hc,
              List.getD_cons_succ]
            exact ih rem i2 hnone
        | none =>
          rw [scoreSecondPass_none_cons, List.getD_cons_succ]
          exact ih rem i2 hnone

theorem scoreCells_getD_fst (g a : List Char) (i : Nat) (hga : g.length ≤ i) :
    ((scoreCells g a).getD i ((none : Option Char), ' ')).1 = none := by
  unfold scoreCells
  rw [List.getD_eq_getElem?_getD, List.getElem?_map]
  by_cases hi : i < a.length
  · rw [List.getElem?_range hi]
    simp [List.getElem?_eq_none hga]
  · rw [List.getElem?_eq_none (by simpa using hi)]
    simp

/-- C10: scoreWordleGuess is total over all pairs of strings: the row length
always equals the answer length, and when the guess is shorter than the
answer every position at or beyond the guess length is marked absent. -/
theorem C10_score_totality (guess answer : List Char) :
    (scoreWordleGuess guess answer).length = answer.length
    ∧ (∀ i, guess.length ≤ i → i < answer.length →
        (scoreWordleGuess guess answer).getD i Score.absent = Score.absent) := by
  refine ⟨scoreWordleGuess_length guess answer, ?_⟩
  intro i h1 _
  exact scoreSecondPass_getD_none _ _ _ (scoreCells_getD_fst _ _ _ h1)

/- ---------- Session state machines ---------- -/

/- Wordle session (App.tsx lines 314-320 state, 799-848 submit).
   Only the fields the submit transition reads or writes are modeled;
   the message strings, reveal flags and input box are display-only.
   Nullable React state is modeled with `Option`.  The submitted guess
   `raw` stands for the already trimmed-and-uppercased input. -/
structure WordleState where
  answer : Option (List Char)
  guesses : List (List Char)
  results : List (List Score)
  done : Bool
deriving DecidableEq, Repr

/- handleWordleSubmit, App.tsx lines 799-848, split into the null-answer
   guard and the body after it.  The word list `wordSet` models the
   corpus membership set; a `null` set rejects like an empty one. -/
def handleWordleSubmitCore (wordSet : List (List Char)) (raw : List Char)
    (s : WordleState) (ans : List Char) : WordleState :=
  if s.done then s
  else if raw.length ≠ 5 then s
  else if ¬ wordSet.contains raw then s
  else if 6 ≤ s.guesses.length then s
  else
    let score := scoreWordleGuess raw ans
    let newGuesses := s.guesses ++ [raw]
    let newResults := s.results ++ [score]
    let done2 := decide (raw = ans) || decide (6 ≤ newGuesses.length)
    { s with guesses := newGuesses, results := newResults, done := done2 }

def handleWordleSubmit (wordSet : List (List Char)) (raw : List Char)
    (s : WordleState) : WordleState :=
  match s.answer with
  | none => s
  | some ans => handleWordleSubmitCore wordSet raw s ans

/- Quordle session (App.tsx lines 323-335 state, 850-920 submit). -/
structure QuordleState where
  answers : Option (List (List Char))
  guesses : List (List Char)
  results : List (List (List Score))
  wins : List Bool
  done : Bool
deriving DecidableEq, Repr

/- handleQuordleSubmit, App.tsx lines 850-920.  The per-board loop
   pushes one feedback row per board and turns a board win flag on
   exactly when the guess equals that board answer; in every reachable
   state there are exactly 4 boards, 4 win flags and 4 result lists. -/
def handleQuordleSubmitCore (wordSet : List (List Char)) (raw : List Char)
    (s : QuordleState) (ans : List (List Char)) : QuordleState :=
  if s.done then s
  else if raw.length ≠ 5 then s
  else if ¬ wordSet.contains raw then s
  else if 9 ≤ s.guesses.length then s
  else
    let newGuesses := s.guesses ++ [raw]
    let newResults := (List.range 4).map (fun b =>
      (if s.results.length = 4 then s.results.getD b [] else [])
        ++ [scoreWordleGuess raw (ans.getD b [])])
    let newWins := (List.range 4).map (fun b =>
      s.wins.getD b false || decide (raw = ans.getD b []))
    let done2 := newWins.all id || decide (9 ≤ newGuesses.length)
    { s with guesses := newGuesses, results := newResults, wins := newWins,
             done := done2 }

def handleQuordleSubmit (wordSet : List (List Char)) (raw : List Char)
    (s : QuordleState) : QuordleState :=
  match s.answers with
  | none => s
  | some ans => handleQuordleSubmitCore wordSet raw s ans

def quordleRun (wordSet : List (List Char)) (gs : List (List Char))
    (s : QuordleState) : QuordleState :=
  gs.foldl (fun st g => handleQuordleSubmit wordSet g st) s

/- Streakle session (App.tsx lines 338-353 state, 922-1003 submit). -/
structure StreakleState where
  targets : Option (List (List Char))
  currentIndex : Nat
  guesses : List (List Char)
  results : List (List (List Score))
  solved : List Bool
  done : Bool
deriving DecidableEq, Repr

/- computeStreakleResults, App.tsx lines 156-163. -/
def computeStreakleResults (guesses targets : List (List Char)) :
    List (List (List Score)) :=
  targets.map (fun target => guesses.map (fun guess => scoreWordleGuess guess target))

/- streakleLockedPattern, App.tsx lines 454-469: one row of the active
   board at a time, each correct cell pins the pattern slot to the
   letter the corresponding guess placed there. -/
def lockStep (grow : List Char) (resultRow : List Score) (pat2 : List Char)
    (col : Nat) : List Char :=
  if resultRow.getD col Score.absent = Score.correct ∧ grow ≠ [] then
    jsSet pat2 col (grow.getD col '?')
  else pat2

def streakleLockRow (grow : List Char) (resultRow : List Score) (pat : List Char) :
    List Char :=
  (List.range resultRow.length).foldl (lockStep grow resultRow) pat

def streakleLockedPattern (s : StreakleState) : List Char :=
  match s.targets with
  | none => []
  | some ts =>
    if ts.length = 0 then []
    else
      let boardResults := s.results.getD s.currentIndex []
      (List.range boardResults.length).foldl (fun pat row =>
        streakleLockRow (s.guesses.getD row []) (boardResults.getD row []) pat)
        (List.replicate 5 '_')

/- The locked-greens check of handleStreakleSubmit, App.tsx lines 946-956. -/
def streakleLockViolation (s : StreakleState) (raw : List Char) : Bool :=
  let lp := streakleLockedPattern s
  decide (lp.length = 5) &&
    (List.range lp.length).any (fun i =>
      !decide (lp.getD i ' ' = '_') && !decide (raw.getD i '?' = lp.getD i ' '))

/- handleStreakleSubmit, App.tsx lines 922-1003, split into the
   null-targets guard and the body after it. -/
def handleStreakleSubmitCore (wordSet : List (List Char)) (raw : List Char)
    (s : StreakleState) (ts : List (List Char)) : StreakleState :=
  if s.done then s
  else if raw.length ≠ 5 then s
  else if ¬ wordSet.contains raw then s
  else if 8 ≤ s.guesses.length then { s with done := true }
  else if streakleLockViolation s raw then s
  else
    let newGuesses := s.guesses ++ [raw]
    let newResults := computeStreakleResults newGuesses ts
    let solved := ts.map (fun t => newGuesses.contains t)
    let allSolved := solved.all id
    let nextTargetIndex :=
      if allSolved then s.currentIndex
      else if solved.getD s.currentIndex false then
        let nextIdx := solved.findIdx (fun v => !v)
        if nextIdx = solved.length then s.currentIndex else nextIdx
      else s.currentIndex
    let done2 := allSolved || decide (8 ≤ newGuesses.length)
    { s with guesses := newGuesses, results := newResults, solved := solved,
             currentIndex := nextTargetIndex, done := done2 }

def handleStreakleSubmit (wordSet : List (List Char)) (raw : List Char)
    (s : StreakleState) : StreakleState :=
  match s.targets with
  | none => s
  | some ts => handleStreakleSubmitCore wordSet raw s ts

/- Spelling Bee session (App.tsx lines 356-366 state, 1012-1079 submit). -/
structure BeeState where
  letters : Option (List Char)
  center : Option Char
  dictLoading : Bool
  validWords : List (List Char)
  pangrams : List (List Char)
  foundWords : List (List Char)
deriving DecidableEq, Repr

/- handleBeeSubmit, App.tsx lines 1012-1079, split into the null guard
   and the body after it. -/
def handleBeeSubmitCore (raw : List Char) (s : BeeState)
    (letters : List Char) (center : Char) : BeeState :=
  if s.dictLoading then s
  else if raw.length < 4 then s
  else if ¬ raw.contains center then s
  else if ¬ raw.all (fun ch => letters.contains ch) then s
  else if ¬ s.validWords.contains raw then s
  else if s.foundWords.contains raw then s
  else { s with foundWords := s.foundWords ++ [raw] }

def handleBeeSubmit (raw : List Char) (s : BeeState) : BeeState :=
  match s.letters, s.center with
  | some letters, some center => handleBeeSubmitCore raw s letters center
  | _, _ => s

/-- C4: for each of the Wordle, Quordle and Streakle sessions, once the
session is terminal (done), submitting any guess is rejected and leaves the
whole state, in particular guess log, feedback history, win and solved flags
and guess count, unchanged. -/
theorem C4_terminal_idempotence (wordSet : List (List Char)) (raw : List Char)
    (sW : WordleState) (sQ : QuordleState) (sS : StreakleState) :
    (sW.done = true → handleWordleSubmit wordSet raw sW = sW)
    ∧ (sQ.done = true → handleQuordleSubmit wordSet raw sQ = sQ)
    ∧ (sS.done = true → handleStreakleSubmit wordSet raw sS = sS) := by
  refine ⟨?_, ?_, ?_⟩
  · intro h
    unfold handleWordleSubmit
    cases hA : sW.answer with
    | none => rfl
    | some a =>
      show handleWordleSubmitCore wordSet raw sW a = sW
      unfold handleWordleSubmitCore
      rw [if_pos h]
  · intro h
    unfold handleQuordleSubmit
    cases hA : sQ.answers with
    | none => rfl
    | some a =>
      show handleQuordleSubmitCore wordSet raw sQ a = sQ
      unfold handleQuordleSubmitCore
      rw [if_pos h]
  · intro h
    unfold handleStreakleSubmit
    cases hA : sS.targets with
    | none => rfl
    | some a =>
      show handleStreakleSubmitCore wordSet raw sS a = sS
      unfold handleStreakleSubmitCore
      rw [if_pos h]

theorem C4_witness :
    ({ answer := some ['S','L','A','T','E'], guesses := [['S','L','A','T','E']],
       results := [scoreWordleGuess ['S','L','A','T','E'] ['S','L','A','T','E']],
       done := true : WordleState }).done = true
    ∧ handleWordleSubmit [['C','R','A','N','E']] ['C','R','A','N','E']
        { answer := some ['S','L','A','T','E'], guesses := [['S','L','A','T','E']],
          results := [scoreWordleGuess ['S','L','A','T','E'] ['S','L','A','T','E']],
          done := true }
      = { answer := some ['S','L','A','T','E'], guesses := [['S','L','A','T','E']],
          results := [scoreWordleGuess ['S','L','A','T','E'] ['S','L','A','T','E']],
          done := true } :=
  ⟨rfl,
   (C4_terminal_idempotence [['C','R','A','N','E']] ['C','R','A','N','E']
      { answer := some ['S','L','A','T','E'], guesses := [['S','L','A','T','E']],
        results := [scoreWordleGuess ['S','L','A','T','E'] ['S','L','A','T','E']],
        done := true }
      { answers := none, guesses := [], results := [], wins := [], done := false }
      { targets := none, currentIndex := 0, guesses := [], results := [],
        solved := [], done := false }).1 rfl⟩

/-- C8: in the Bee session, every submitted word that misses the center
letter or uses a letter outside the 7-letter hive is rejected regardless of
dictionary or valid-word membership, leaving the state, in particular the
found-words set, unchanged. -/
theorem C8_bee_membership (s : BeeState) (raw : List Char) (ls : List Char) (c : Char)
    (hl : s.letters = some ls) (hc : s.center = some c)
    (hbad : raw.contains c = false ∨ raw.all (fun ch => ls.contains ch) = false) :
    handleBeeSubmit raw s = s := by
  unfold handleBeeSubmit
  rw [hl, hc]
  show handleBeeSubmitCore raw s ls c = s
  rcases hbad with hbad | hbad
  · have hcen : c ∉ raw := by simpa using hbad
    simp [handleBeeSubmitCore, hcen]
  · have hout : ¬ ∀ x ∈ raw, x ∈ ls := by simpa using hbad
    simp [handleBeeSubmitCore, hout]

theorem C8_witness :
    ({ letters := some ['A','B','C','D','E','F','G'], center := some 'A',
       dictLoading := false, validWords := [['B','A','G','E']], pangrams := [],
       foundWords := [] : BeeState }).letters = some ['A','B','C','D','E','F','G']
    ∧ handleBeeSubmit ['B','X','G','E']
        { letters := some ['A','B','C','D','E','F','G'], center := some 'A',
          dictLoading := false, validWords := [['B','A','G','E']], pangrams := [],
          foundWords := [] }
      = { letters := some ['A','B','C','D','E','F','G'], center := some 'A',
          dictLoading := false, validWords := [['B','A','G','E']], pangrams := [],
          foundWords := [] } :=
  ⟨rfl,
   C8_bee_membership
     { letters := some ['A','B','C','D','E','F','G'], center := some 'A',
       dictLoading := false, validWords := [['B','A','G','E']], pangrams := [],
       foundWords := [] }
     ['B','X','G','E'] ['A','B','C','D','E','F','G'] 'A' rfl rfl
     (Or.inl (by decide))⟩

/- ---------- C3: Quordle win-flag independence ---------- -/

theorem getD_map_range {α : Type} (n : Nat) (f : Nat → α) (b : Nat) (hb : b < n) (d : α) :
    (((List.range n).map f).getD b d) = f b := by
  rw [List.getD_eq_getElem?_getD, List.getElem?_map, List.getElem?_range hb]
  rfl

/- Validation conditions under which handleQuordleSubmit accepts a guess. -/
def quordleAccepts (wordSet : List (List Char)) (s : QuordleState)
    (raw : List Char) : Prop :=
  s.answers ≠ none ∧ s.done = false ∧ raw.length = 5
    ∧ wordSet.contains raw = true ∧ s.guesses.length < 9

theorem handleQuordleSubmitCore_answers (ws : List (List Char)) (raw : List Char)
    (s : QuordleState) (ans : List (List Char)) :
    (handleQuordleSubmitCore ws raw s ans).answers = s.answers := by
  unfold handleQuordleSubmitCore
  split_ifs <;> rfl

theorem handleQuordleSubmit_answers (ws : List (List Char)) (raw : List Char)
    (s : QuordleState) : (handleQuordleSubmit ws raw s).answers = s.answers := by
  unfold handleQuordleSubmit
  cases h : s.answers with
  | none => exact h
  | some ans => exact (handleQuordleSubmitCore_answers ws raw s ans).trans h

theorem quordle_step_wins_mono (ws : List (List Char)) (raw : List Char)
    (s : QuordleState) (b : Nat) (hb : b < 4) (h : s.wins.getD b false = true) :
    (handleQuordleSubmit ws raw s).wins.getD b false = true := by
  unfold handleQuordleSubmit
  cases hans : s.answers with
  | none => exact h
  | some ans =>
    show (handleQuordleSubmitCore ws raw s ans).wins.getD b false = true
    unfold handleQuordleSubmitCore
    split_ifs <;> try exact h
    all_goals
      change ((List.range 4).map
        (fun i => s.wins.getD i false || decide (raw = ans.getD i []))).getD b false = true
    all_goals rw [getD_map_range 4 _ b hb, h, Bool.true_or]

theorem quordle_step_wins_frame (ws : List (List Char)) (raw : List Char)
    (s : QuordleState) (ans : List (List Char)) (b : Nat)
    (hans : s.answers = some ans) (hb : b < 4) (hne : raw ≠ ans.getD b []) :
    (handleQuordleSubmit ws raw s).wins.getD b false = s.wins.getD b false := by
  unfold handleQuordleSubmit
  rw [hans]
  show (handleQuordleSubmitCore ws raw s ans).wins.getD b false = s.wins.getD b false
  unfold handleQuordleSubmitCore
  split_ifs <;> try rfl
  all_goals
    change ((List.range 4).map
      (fun i => s.wins.getD i false || decide (raw = ans.getD i []))).getD b false
      = s.wins.getD b false
  all_goals rw [getD_map_range 4 _ b hb, decide_eq_false hne, Bool.or_false]

theorem quordle_step_wins_set (ws : List (List Char)) (raw : List Char)
    (s : QuordleState) (ans : List (List Char)) (b : Nat)
    (hans : s.answers = some ans) (hb : b < 4)
    (hacc : quordleAccepts ws s raw) (heq : raw = ans.getD b []) :
    (handleQuordleSubmit ws raw s).wins.getD b false = true := by
  obtain ⟨_, h1, h2, h3, h4⟩ := hacc
  unfold handleQuordleSubmit
  rw [hans]
  show (handleQuordleSubmitCore ws raw s ans).wins.getD b false = true
  unfold handleQuordleSubmitCore
  rw [if_neg (show ¬ s.done = true by rw [h1]; exact Bool.false_ne_true),
    if_neg (show ¬ raw.length ≠ 5 from fun hh => hh h2),
    if_neg (show ¬ ¬ ws.contains raw = true from fun hh => hh h3),
    if_neg (show ¬ 9 ≤ s.guesses.length by omega)]
  change ((List.range 4).map
    (fun i => s.wins.getD i false || decide (raw = ans.getD i []))).getD b false = true
  rw [getD_map_range 4 _ b hb]
  simp [heq]

theorem quordleRun_wins_mono (ws : List (List Char)) (b : Nat) (hb : b < 4) :
    ∀ (gs : List (List Char)) (s : QuordleState), s.wins.getD b false = true →
      (quordleRun ws gs s).wins.getD b false = true := by
  intro gs
  induction gs with
  | nil => intro s h; exact h
  | cons g rest ih =>
    intro s h
    exact ih _ (quordle_step_wins_mono ws g s b hb h)

theorem quordleRun_wins_frame (ws : List (List Char)) (ans : List (List Char))
    (b : Nat) (hb : b < 4) :
    ∀ (gs : List (List Char)) (s : QuordleState), s.answers = some ans →
      (∀ g ∈ gs, g ≠ ans.getD b []) →
      (quordleRun ws gs s).wins.getD b false = s.wins.getD b false := by
  intro gs
  induction gs with
  | nil => intro s _ _; rfl
  | cons g rest ih =>
    intro s hans hne
    have hstep := quordle_step_wins_frame ws g s ans b hans hb (hne g (by simp))
    have hrest := ih (handleQuordleSubmit ws g s)
      (by rw [handleQuordleSubmit_answers, hans])
      (fun g2 hg2 => hne g2 (by simp [hg2]))
    rw [quordleRun] at hrest ⊢
    rw [List.foldl_cons, hrest, hstep]

/-- C3: in Quordle, an accepted guess equal to board b's answer sets board
b's win flag; each board's win flag, once set, is never cleared by any later
sequence of submissions; and a sequence of guesses none of which equals board
b's answer leaves board b's win flag unchanged. -/
theorem C3_quordle_win_flags (ws : List (List Char)) (s : QuordleState)
    (ans : List (List Char)) (raw : List Char) (b : Nat) (gs : List (List Char))
    (hans : s.answers = some ans) (hb : b < 4) :
    (quordleAccepts ws s raw → raw = ans.getD b [] →
       (handleQuordleSubmit ws raw s).wins.getD b false = true)
    ∧ (s.wins.getD b false = true → (quordleRun ws gs s).wins.getD b false = true)
    ∧ ((∀ g ∈ gs, g ≠ ans.getD b []) →
       (quordleRun ws gs s).wins.getD b false = s.wins.getD b false) :=
  ⟨fun hacc heq => quordle_step_wins_set ws raw s ans b hans hb hacc heq,
   fun h => quordleRun_wins_mono ws b hb gs s h,
   fun hne => quordleRun_wins_frame ws ans b hb gs s hans hne⟩

theorem C3_witness :
    (({ answers := some [['C','R','A','N','E'], ['S','L','A','T','E'],
          ['P','L','U','M','B'], ['G','H','O','S','T']],
        guesses := [], results := [[], [], [], []],
        wins := [false, false, false, false], done := false : QuordleState }).answers
      = some [['C','R','A','N','E'], ['S','L','A','T','E'],
          ['P','L','U','M','B'], ['G','H','O','S','T']])
    ∧ ((0 : Nat) < 4)
    ∧ (handleQuordleSubmit [['C','R','A','N','E']] ['C','R','A','N','E']
        { answers := some [['C','R','A','N','E'], ['S','L','A','T','E'],
            ['P','L','U','M','B'], ['G','H','O','S','T']],
          guesses := [], results := [[], [], [], []],
          wins := [false, false, false, false], done := false }).wins.getD 0 false
      = true :=
  ⟨rfl, by decide,
   (C3_quordle_win_flags [['C','R','A','N','E']]
      { answers := some [['C','R','A','N','E'], ['S','L','A','T','E'],
          ['P','L','U','M','B'], ['G','H','O','S','T']],
        guesses := [], results := [[], [], [], []],
        wins := [false, false, false, false], done := false }
      [['C','R','A','N','E'], ['S','L','A','T','E'],
        ['P','L','U','M','B'], ['G','H','O','S','T']]
      ['C','R','A','N','E'] 0 [] rfl (by decide)).1
     ⟨by decide, rfl, rfl, by decide, by decide⟩ rfl⟩

/- ---------- C9: Wordle keyboard-hint aggregation ---------- -/

/- wordleLetterStates, App.tsx lines 368-391.  The keyboard state map
   (a JS Record) is modeled as `Char → Option Score`, `none` meaning no
   entry yet.  For each guess row, each position upgrades the letter
   state: `correct` always wins, `present` wins unless the previous
   state is `correct`, `absent` is recorded only when there is no
   previous state.  A position whose feedback entry is missing
   (`resultRow[i]` undefined) is skipped. -/
def updateLetterState (states : Char → Option Score) (letter : Char)
    (status : Score) : Char → Option Score :=
  fun c =>
    if c = letter then
      match status, states letter with
      | Score.correct, _ => some Score.correct
      | Score.present, some Score.correct => some Score.correct
      | Score.present, _ => some Score.present
      | Score.absent, none => some Score.absent
      | Score.absent, some prev => some prev
    else states c

def wordleRowFold (states : Char → Option Score) (guess : List Char)
    (resultRow : List Score) : Char → Option Score :=
  (List.range guess.length).foldl (fun st i =>
    match resultRow[i]? with
    | none => st
    | some status => updateLetterState st (guess.getD i '?') status) states

def wordleLetterStates (guesses : List (List Char)) (results : List (List Score)) :
    Char → Option Score :=
  (List.range guesses.length).foldl (fun st row =>
    wordleRowFold st (guesses.getD row []) (results.getD row [])) (fun _ => none)

/- Rank of an aggregated keyboard state in the upgrade order
   no entry < absent < present < correct. -/
def scoreRank : Option Score → Nat
  | none => 0
  | some Score.absent => 1
  | some Score.present => 2
  | some Score.correct => 3

theorem scoreRank_le_three (o : Option Score) : scoreRank o ≤ 3 := by
  cases o with
  | none => simp [scoreRank]
  | some p => cases p <;> simp [scoreRank]

theorem scoreRank_eq_three (o : Option Score) (h : scoreRank o = 3) :
    o = some Score.correct := by
  cases o with
  | none => simp [scoreRank] at h
  | some p => cases p <;> simp_all [scoreRank]

theorem updateLetterState_mono (st : Char → Option Score) (l : Char) (status : Score)
    (c : Char) : scoreRank (st c) ≤ scoreRank (updateLetterState st l status c) := by
  unfold updateLetterState
  by_cases h : c = l
  · subst h
    rw [if_pos rfl]
    cases status with
    | correct =>
      cases hc : st c with
      | none => simp [scoreRank]
      | some p => cases p <;> simp [scoreRank]
    | present =>
      cases hc : st c with
      | none => simp [scoreRank]
      | some p => cases p <;> simp [scoreRank]
    | absent =>
      cases hc : st c with
      | none => simp [scoreRank]
      | some p => cases p <;> simp [scoreRank]
  · rw [if_neg h]

theorem foldl_states_mono (c : Char) (l : List Nat)
    (f : (Char → Option Score) → Nat → (Char → Option Score))
    (hf : ∀ st i, scoreRank (st c) ≤ scoreRank (f st i c)) :
    ∀ (st : Char → Option Score), scoreRank (st c) ≤ scoreRank ((l.foldl f st) c) := by
  induction l with
  | nil => intro st; exact Nat.le_refl _
  | cons x rest ih =>
    intro st
    exact Nat.le_trans (hf st x) (ih (f st x))

theorem wordleRowFold_mono (st : Char → Option Score) (g : List Char)
    (r : List Score) (c : Char) :
    scoreRank (st c) ≤ scoreRank (wordleRowFold st g r c) := by
  unfold wordleRowFold
  refine foldl_states_mono c (List.range g.length) _ ?_ st
  intro st2 i
  cases hr : r[i]? with
  | none => exact Nat.le_refl _
  | some status => exact updateLetterState_mono st2 (g.getD i '?') status c

theorem foldl_congr_mem {α β : Type} (l : List β) (f1 f2 : α → β → α)
    (h : ∀ a b, b ∈ l → f1 a b = f2 a b) :
    ∀ (init : α), l.foldl f1 init = l.foldl f2 init := by
  induction l with
  | nil => intro init; rfl
  | cons x rest ih =>
    intro init
    rw [List.foldl_cons, List.foldl_cons, h init x (by simp)]
    exact ih (fun a b hb => h a b (by simp [hb])) _

theorem getD_append_left {α : Type} (l1 l2 : List α) (n : Nat) (d : α)
    (h : n < l1.length) : (l1 ++ l2).getD n d = l1.getD n d := by
  rw [List.getD_eq_getElem?_getD, List.getD_eq_getElem?_getD,
    List.getElem?_append, if_pos h]

theorem getD_append_self {α : Type} (l1 : List α) (x : α) (d : α) :
    (l1 ++ [x]).getD l1.length d = x := by
  rw [List.getD_eq_getElem?_getD, List.getElem?_append_right (Nat.le_refl _)]
  simp

theorem wordleLetterStates_append (gs : List (List Char)) (rs : List (List Score))
    (g : List Char) (r : List Score) (hlen : rs.length = gs.length) :
    wordleLetterStates (gs ++ [g]) (rs ++ [r])
      = wordleRowFold (wordleLetterStates gs rs) g r := by
  unfold wordleLetterStates
  have hlen2 : (gs ++ [g]).length = gs.length + 1 := by simp
  rw [hlen2, List.range_succ, List.foldl_append]
  have hpre : (List.range gs.length).foldl
      (fun st row => wordleRowFold st ((gs ++ [g]).getD row []) ((rs ++ [r]).getD row []))
      (fun _ => none)
      = (List.range gs.length).foldl
        (fun st row => wordleRowFold st (gs.getD row []) (rs.getD row []))
        (fun _ => none) := by
    refine foldl_congr_mem _ _ _ ?_ _
    intro a row hrow
    have hrow2 : row < gs.length := List.mem_range.mp hrow
    rw [getD_append_left gs [g] row [] hrow2,
      getD_append_left rs [r] row [] (by rw [hlen]; exact hrow2)]
  rw [hpre, List.foldl_cons, List.foldl_nil, getD_append_self gs g []]
  have : (rs ++ [r]).getD gs.length [] = r := by
    rw [← hlen]
    exact getD_append_self rs r []
  rw [this]

/-- C9: the Wordle keyboard-hint aggregation is monotone in the order
absent < present < correct: appending one more guess row never lowers a
letter's aggregated state, a correct letter stays correct, and a present
letter is never changed to absent. -/
theorem C9_keyboard_monotone (gs : List (List Char)) (rs : List (List Score))
    (g : List Char) (r : List Score) (c : Char) (hlen : rs.length = gs.length) :
    scoreRank (wordleLetterStates gs rs c)
      ≤ scoreRank (wordleLetterStates (gs ++ [g]) (rs ++ [r]) c)
    ∧ (wordleLetterStates gs rs c = some Score.correct →
        wordleLetterStates (gs ++ [g]) (rs ++ [r]) c = some Score.correct)
    ∧ (wordleLetterStates gs rs c = some Score.present →
        wordleLetterStates (gs ++ [g]) (rs ++ [r]) c ≠ some Score.absent) := by
  have hmono : scoreRank (wordleLetterStates gs rs c)
      ≤ scoreRank (wordleLetterStates (gs ++ [g]) (rs ++ [r]) c) := by
    rw [wordleLetterStates_append gs rs g r hlen]
    exact wordleRowFold_mono _ g r c
  refine ⟨hmono, ?_, ?_⟩
  · intro h
    rw [h] at hmono
    refine scoreRank_eq_three _ (Nat.le_antisymm (scoreRank_le_three _) ?_)
    simpa [scoreRank] using hmono
  · intro h hcontra
    rw [h, hcontra] at hmono
    simp [scoreRank] at hmono

theorem C9_witness :
    ([[Score.present, Score.absent, Score.absent, Score.absent, Score.absent]]
        : List (List Score)).length
      = ([['A','B','B','B','B']] : List (List Char)).length
    ∧ (scoreRank (wordleLetterStates [['A','B','B','B','B']]
          [[Score.present, Score.absent, Score.absent, Score.absent, Score.absent]] 'A')
        ≤ scoreRank (wordleLetterStates ([['A','B','B','B','B']] ++ [['A','A','A','A','A']])
          ([[Score.present, Score.absent, Score.absent, Score.absent, Score.absent]]
            ++ [[Score.correct, Score.correct, Score.correct, Score.correct, Score.correct]]) 'A')
      ∧ (wordleLetterStates [['A','B','B','B','B']]
          [[Score.present, Score.absent, Score.absent, Score.absent, Score.absent]] 'A'
            = some Score.correct →
          wordleLetterStates ([['A','B','B','B','B']] ++ [['A','A','A','A','A']])
            ([[Score.present, Score.absent, Score.absent, Score.absent, Score.absent]]
              ++ [[Score.correct, Score.correct, Score.correct, Score.correct, Score.correct]]) 'A'
            = some Score.correct)
      ∧ (wordleLetterStates [['A','B','B','B','B']]
          [[Score.present, Score.absent, Score.absent, Score.absent, Score.absent]] 'A'
            = some Score.present →
          wordleLetterStates ([['A','B','B','B','B']] ++ [['A','A','A','A','A']])
            ([[Score.present, Score.absent, Score.absent, Score.absent, Score.absent]]
              ++ [[Score.correct, Score.correct, Score.correct, Score.correct, Score.correct]]) 'A'
            ≠ some Score.absent)) :=
  ⟨rfl,
   C9_keyboard_monotone [['A','B','B','B','B']]
     [[Score.present, Score.absent, Score.absent, Score.absent, Score.absent]]
     ['A','A','A','A','A']
     [Score.correct, Score.correct, Score.correct, Score.correct, Score.correct] 'A' rfl⟩

theorem C10_witness :
    (scoreWordleGuess ['C','A','T'] ['C','R','A','N','E']).length
      = (['C','R','A','N','E'] : List Char).length
    ∧ (scoreWordleGuess ['C','A','T'] ['C','R','A','N','E']).getD 4 Score.absent
      = Score.absent :=
  ⟨(C10_score_totality ['C','A','T'] ['C','R','A','N','E']).1,
   (C10_score_totality ['C','A','T'] ['C','R','A','N','E']).2 4 (by decide) (by decide)⟩

/- ---------- C2: Streakle locked-position invariant ---------- -/

theorem jsSet_length (l : List Char) (i : Nat) (c : Char) (h : i < l.length) :
    (jsSet l i c).length = l.length := by
  unfold jsSet
  rw [if_pos h]
  exact List.length_set l i c

theorem jsSet_getD_self (l : List Char) (i : Nat) (c : Char) (h : i < l.length)
    (d : Char) : (jsSet l i c).getD i d = c := by
  unfold jsSet
  rw [if_pos h, List.getD_eq_getElem?_getD, List.getElem?_set_eq h]
  rfl

theorem jsSet_getD_ne (l : List Char) (i k : Nat) (c : Char) (h : i < l.length)
    (hk : i ≠ k) (d : Char) : (jsSet l i c).getD k d = l.getD k d := by
  unfold jsSet
  rw [if_pos h, List.getD_eq_getElem?_getD, List.getElem?_set_ne hk,
    ← List.getD_eq_getElem?_getD]

theorem getD_mem_of_lt {α : Type} (l : List α) (n : Nat) (d : α) (h : n < l.length) :
    l.getD n d ∈ l := by
  rw [List.getD_eq_getElem?_getD, List.getElem?_eq_getElem h]
  exact List.getElem_mem h

theorem getD_map_lt {α β : Type} (l : List α) (f : α → β) (i : Nat) (hi : i < l.length)
    (d : β) (d2 : α) : (l.map f).getD i d = f (l.getD i d2) := by
  rw [List.getD_eq_getElem?_getD, List.getD_eq_getElem?_getD, List.getElem?_map,
    List.getElem?_eq_getElem hi]
  rfl

theorem lockStep_apply (grow : List Char) (rr : List Score) (pat2 : List Char)
    (col : Nat) :
    lockStep grow rr pat2 col
      = if rr.getD col Score.absent = Score.correct ∧ grow ≠ [] then
          jsSet pat2 col (grow.getD col '?')
        else pat2 := rfl

theorem lockStep_range_length (grow : List Char) (rr : List Score) :
    ∀ (n : Nat) (pat : List Char), (∀ col, col < n → col < pat.length) →
      ((List.range n).foldl (lockStep grow rr) pat).length = pat.length := by
  intro n
  induction n with
  | zero => intro pat _; rfl
  | succ m ih =>
    intro pat h
    rw [List.range_succ, List.foldl_append, List.foldl_cons, List.foldl_nil]
    have hlen : ((List.range m).foldl (lockStep grow rr) pat).length = pat.length :=
      ih pat (fun col hc => h col (Nat.lt_succ_of_lt hc))
    rw [lockStep_apply]
    split_ifs with hcond
    · rw [jsSet_length _ _ _ (by rw [hlen]; exact h m (Nat.lt_succ_self m)), hlen]
    · exact hlen

theorem lockStep_range_getD (grow : List Char) (rr : List Score) (i : Nat) (d : Char) :
    ∀ (n : Nat) (pat : List Char), (∀ col, col < n → col < pat.length) →
      ((List.range n).foldl (lockStep grow rr) pat).getD i d
        = if i < n ∧ rr.getD i Score.absent = Score.correct ∧ grow ≠ [] then
            grow.getD i '?'
          else pat.getD i d := by
  intro n
  induction n with
  | zero =>
    intro pat _
    rw [if_neg (fun hh => Nat.not_lt_zero i hh.1)]
    rfl
  | succ m ih =>
    intro pat h
    rw [List.range_succ, List.foldl_append, List.foldl_cons, List.foldl_nil]
    have hih := ih pat (fun col hc => h col (Nat.lt_succ_of_lt hc))
    have hlen : ((List.range m).foldl (lockStep grow rr) pat).length = pat.length :=
      lockStep_range_length grow rr m pat (fun col hc => h col (Nat.lt_succ_of_lt hc))
    rw [lockStep_apply]
    by_cases hcond : rr.getD m Score.absent = Score.correct ∧ grow ≠ []
    · rw [if_pos hcond]
      by_cases him : i = m
      · subst him
        rw [jsSet_getD_self _ _ _ (by rw [hlen]; exact h i (Nat.lt_succ_self i)) d,
          if_pos ⟨Nat.lt_succ_self i, hcond⟩]
      · rw [jsSet_getD_ne _ _ _ _ (by rw [hlen]; exact h m (Nat.lt_succ_self m))
          (fun hh => him hh.symm) d, hih]
        by_cases hi2 : i < m ∧ rr.getD i Score.absent = Score.correct ∧ grow ≠ []
        · rw [if_pos hi2, if_pos ⟨Nat.lt_succ_of_lt hi2.1, hi2.2⟩]
        · have hneg : ¬ (i < m + 1 ∧ rr.getD i Score.absent = Score.correct ∧ grow ≠ []) :=
            fun hh => hi2 ⟨Nat.lt_of_le_of_ne (Nat.le_of_lt_succ hh.1) him, hh.2⟩
          rw [if_neg hi2, if_neg hneg]
    · rw [if_neg hcond, hih]
      by_cases hi2 : i < m ∧ rr.getD i Score.absent = Score.correct ∧ grow ≠ []
      · rw [if_pos hi2, if_pos ⟨Nat.lt_succ_of_lt hi2.1, hi2.2⟩]
      · have hneg : ¬ (i < m + 1 ∧ rr.getD i Score.absent = Score.correct ∧ grow ≠ []) := by
          intro hh
          rcases Nat.lt_succ_iff_lt_or_eq.mp hh.1 with hlt | heqm
          · exact hi2 ⟨hlt, hh.2⟩
          · exact hcond (heqm ▸ hh.2)
        rw [if_neg hi2, if_neg hneg]

theorem streakleLockRow_length (grow : List Char) (rr : List Score) (pat : List Char)
    (h : rr.length ≤ pat.length) : (streakleLockRow grow rr pat).length = pat.length := by
  unfold streakleLockRow
  exact lockStep_range_length grow rr rr.length pat (fun col hc => Nat.lt_of_lt_of_le hc h)

theorem streakleLockRow_getD (grow : List Char) (rr : List Score) (pat : List Char)
    (i : Nat) (d : Char) (h : rr.length ≤ pat.length) :
    (streakleLockRow grow rr pat).getD i d
      = if i < rr.length ∧ rr.getD i Score.absent = Score.correct ∧ grow ≠ [] then
          grow.getD i '?'
        else pat.getD i d := by
  unfold streakleLockRow
  exact lockStep_range_getD grow rr i d rr.length pat (fun col hc => Nat.lt_of_lt_of_le hc h)

theorem lockOuter_length (G : Nat → List Char) (R : Nat → List Score) :
    ∀ (n : Nat) (pat : List Char), (∀ row, row < n → (R row).length ≤ pat.length) →
      ((List.range n).foldl (fun pat2 row => streakleLockRow (G row) (R row) pat2)
        pat).length = pat.length := by
  intro n
  induction n with
  | zero => intro pat _; rfl
  | succ m ih =>
    intro pat h
    rw [List.range_succ, List.foldl_append, List.foldl_cons, List.foldl_nil]
    have hlen := ih pat (fun row hr => h row (Nat.lt_succ_of_lt hr))
    rw [streakleLockRow_length _ _ _ (by rw [hlen]; exact h m (Nat.lt_succ_self m)), hlen]

theorem lockOuter_getD (G : Nat → List Char) (R : Nat → List Score) (i : Nat) (X d : Char)
    (hall : ∀ row, (i < (R row).length ∧ (R row).getD i Score.absent = Score.correct
      ∧ G row ≠ []) → (G row).getD i '?' = X) :
    ∀ (n : Nat) (pat : List Char), (∀ row, row < n → (R row).length ≤ pat.length) →
      ((List.range n).foldl (fun pat2 row => streakleLockRow (G row) (R row) pat2)
          pat).getD i d
        = if ∃ row, row < n ∧ i < (R row).length
              ∧ (R row).getD i Score.absent = Score.correct ∧ G row ≠ [] then X
          else pat.getD i d := by
  intro n
  induction n with
  | zero =>
    intro pat _
    rw [if_neg (fun hh => Nat.not_lt_zero _ hh.choose_spec.1)]
    rfl
  | succ m ih =>
    intro pat h
    rw [List.range_succ, List.foldl_append, List.foldl_cons, List.foldl_nil]
    have hlen := lockOuter_length G R m pat (fun row hr => h row (Nat.lt_succ_of_lt hr))
    rw [streakleLockRow_getD _ _ _ _ _ (by rw [hlen]; exact h m (Nat.lt_succ_self m)),
      ih pat (fun row hr => h row (Nat.lt_succ_of_lt hr))]
    by_cases hm : i < (R m).length ∧ (R m).getD i Score.absent = Score.correct ∧ G m ≠ []
    · rw [if_pos hm, hall m hm,
        if_pos ⟨m, Nat.lt_succ_self m, hm⟩]
    · rw [if_neg hm]
      by_cases hex : ∃ row, row < m ∧ i < (R row).length
          ∧ (R row).getD i Score.absent = Score.correct ∧ G row ≠ []
      · obtain ⟨row, hr, hc⟩ := hex
        rw [if_pos ⟨row, hr, hc⟩, if_pos ⟨row, Nat.lt_succ_of_lt hr, hc⟩]
      · have hneg : ¬ ∃ row, row < m + 1 ∧ i < (R row).length
            ∧ (R row).getD i Score.absent = Score.correct ∧ G row ≠ [] := by
          intro hh
          obtain ⟨row, hr, hc⟩ := hh
          rcases Nat.lt_succ_iff_lt_or_eq.mp hr with hlt | heqm
          · exact hex ⟨row, hlt, hc⟩
          · exact hm (heqm ▸ hc)
        rw [if_neg hex, if_neg hneg]

theorem scoreSecondPass_correct_getD :
    ∀ (cells : List (Option Char × Char)) (rem : List Char) (i : Nat),
      (scoreSecondPass cells rem).getD i Score.absent = Score.correct →
      (cells.getD i ((none : Option Char), ' ')).1
        = some (cells.getD i ((none : Option Char), ' ')).2 := by
  intro cells
  induction cells with
  | nil =>
    intro rem i h
    simp [scoreSecondPass] at h
  | cons c rest ih =>
    intro rem i h
    obtain ⟨g, a⟩ := c
    by_cases hga : g = some a
    · rw [scoreSecondPass_correct_cons _ _ _ _ hga] at h
      cases i with
      | zero => simpa using hga
      | succ i2 =>
        rw [List.getD_cons_succ] at h ⊢
        exact ih rem i2 h
    · cases g with
      | some ch =>
        have hch : ch ≠ a := fun hh => hga (by rw [hh])
        by_cases hc : 0 < rem.count ch
        · rw [scoreSecondPass_present_cons _ _ _ _ hch hc] at h
          cases i with
          | zero => rw [List.getD_cons_zero] at h; exact Score.noConfusion h
          | succ i2 => rw [List.getD_cons_succ] at h ⊢; exact ih _ i2 h
        · rw [scoreSecondPass_absent_cons _ _ _ _ hch hc] at h
          cases i with
          | zero => rw [List.getD_cons_zero] at h; exact Score.noConfusion h
          | succ i2 => rw [List.getD_cons_succ] at h ⊢; exact ih rem i2 h
      | none =>
        rw [scoreSecondPass_none_cons] at h
        cases i with
        | zero => rw [List.getD_cons_zero] at h; exact Score.noConfusion h
        | succ i2 => rw [List.getD_cons_succ] at h ⊢; exact ih rem i2 h

theorem scoreCells_getD_of_lt (g a : List Char) (i : Nat) (hi : i < a.length) :
    (scoreCells g a).getD i ((none : Option Char), ' ') = (g[i]?, a.getD i ' ') := by
  unfold scoreCells
  rw [List.getD_eq_getElem?_getD, List.getElem?_map, List.getElem?_range hi]
  rfl

/- A correct cell certifies that the guess places the answer letter there. -/
theorem scoreWordleGuess_correct_at (g t : List Char) (i : Nat)
    (h : (scoreWordleGuess g t).getD i Score.absent = Score.correct) :
    i < t.length ∧ g[i]? = some (t.getD i ' ') := by
  have hi : i < t.length := by
    by_contra hno
    have hlen := scoreWordleGuess_length g t
    rw [List.getD_eq_default _ _ (by omega)] at h
    exact Score.noConfusion h
  refine ⟨hi, ?_⟩
  have h1 := scoreSecondPass_correct_getD (scoreCells g t) (scoreRemaining g t) i h
  rw [scoreCells_getD_of_lt g t i hi] at h1
  exact h1

theorem handleStreakleSubmit_some (ws : List (List Char)) (raw : List Char)
    (s : StreakleState) (ts : List (List Char)) (hts : s.targets = some ts) :
    handleStreakleSubmit ws raw s = handleStreakleSubmitCore ws raw s ts := by
  unfold handleStreakleSubmit
  rw [hts]

/-- C2: in a reachable Streakle state, if some prior guess scored correct at
position i against the active target, locking position i to the letter that
guess placed there, then any submitted guess whose letter at position i
differs is rejected: the guess log, feedback history, solved flags and
active-target index are all unchanged and no turn is consumed. -/
theorem C2_streakle_lock (wordSet : List (List Char)) (s : StreakleState)
    (ts : List (List Char)) (raw : List Char) (r i : Nat)
    (hts : s.targets = some ts) (h3 : ts.length = 3) (hci : s.currentIndex < 3)
    (htlen : ∀ t ∈ ts, t.length = 5)
    (hnound : ∀ t ∈ ts, ∀ ch ∈ t, ch ≠ '_')
    (hg5 : ∀ g ∈ s.guesses, g.length = 5)
    (hres : s.results = computeStreakleResults s.guesses ts)
    (hr : r < s.guesses.length)
    (hcorr : (scoreWordleGuess (s.guesses.getD r [])
        (ts.getD s.currentIndex [])).getD i Score.absent = Score.correct)
    (hdiff : raw.getD i '?' ≠ (s.guesses.getD r []).getD i '?') :
    (handleStreakleSubmit wordSet raw s).guesses = s.guesses
    ∧ (handleStreakleSubmit wordSet raw s).results = s.results
    ∧ (handleStreakleSubmit wordSet raw s).solved = s.solved
    ∧ (handleStreakleSubmit wordSet raw s).currentIndex = s.currentIndex := by
  have hTmem : ts.getD s.currentIndex [] ∈ ts :=
    getD_mem_of_lt ts s.currentIndex [] (by omega)
  have hTlen : (ts.getD s.currentIndex []).length = 5 := htlen _ hTmem
  have hcorr2 := scoreWordleGuess_correct_at _ _ _ hcorr
  have hi5 : i < 5 := by rw [hTlen] at hcorr2; exact hcorr2.1
  have hgrmem : s.guesses.getD r [] ∈ s.guesses := getD_mem_of_lt s.guesses r [] hr
  have hgr5 : (s.guesses.getD r []).length = 5 := hg5 _ hgrmem
  have hX : (s.guesses.getD r []).getD i '?' = (ts.getD s.currentIndex []).getD i ' ' := by
    rw [List.getD_eq_getElem?_getD, hcorr2.2]
    rfl
  have hXne : (ts.getD s.currentIndex []).getD i ' ' ≠ '_' := by
    apply hnound _ hTmem
    exact getD_mem_of_lt _ i ' ' (by omega)
  have hbr : s.results.getD s.currentIndex []
      = s.guesses.map (fun g => scoreWordleGuess g (ts.getD s.currentIndex [])) := by
    rw [hres]
    unfold computeStreakleResults
    exact getD_map_lt ts _ s.currentIndex (by omega) [] []
  have hRlen : ∀ row, row < s.guesses.length →
      ((s.results.getD s.currentIndex []).getD row []).length = 5 := by
    intro row hrow
    rw [hbr, getD_map_lt s.guesses _ row hrow [] [], scoreWordleGuess_length, hTlen]
  have hRval : ∀ row, row < s.guesses.length →
      (s.results.getD s.currentIndex []).getD row []
        = scoreWordleGuess (s.guesses.getD row []) (ts.getD s.currentIndex []) := by
    intro row hrow
    rw [hbr, getD_map_lt s.guesses _ row hrow [] []]
  have hn : (s.results.getD s.currentIndex []).length = s.guesses.length := by
    rw [hbr, List.length_map]
  have hlp : streakleLockedPattern s
      = (List.range (s.results.getD s.currentIndex []).length).foldl
          (fun pat2 row => streakleLockRow (s.guesses.getD row [])
            ((s.results.getD s.currentIndex []).getD row []) pat2)
          (List.replicate 5 '_') := by
    unfold streakleLockedPattern
    rw [hts]
    show (if ts.length = 0 then [] else _) = _
    rw [if_neg (by omega)]
  have hallrows : ∀ row,
      (i < ((s.results.getD s.currentIndex []).getD row []).length
        ∧ ((s.results.getD s.currentIndex []).getD row []).getD i Score.absent
            = Score.correct
        ∧ s.guesses.getD row [] ≠ []) →
      (s.guesses.getD row []).getD i '?' = (ts.getD s.currentIndex []).getD i ' ' := by
    intro row hrow
    by_cases hrn : row < s.guesses.length
    · have hcorrow := hrow.2.1
      rw [hRval row hrn] at hcorrow
      have := (scoreWordleGuess_correct_at _ _ _ hcorrow).2
      rw [List.getD_eq_getElem?_getD, this]
      rfl
    · exfalso
      have : (s.results.getD s.currentIndex []).getD row [] = [] := by
        rw [List.getD_eq_default]
        omega
      rw [this] at hrow
      exact Nat.not_lt_zero i hrow.1
  have hlplen : (streakleLockedPattern s).length = 5 := by
    rw [hlp, lockOuter_length]
    · exact List.length_replicate 5 '_'
    · intro row hrow
      rw [List.length_replicate]
      have := hRlen row (by omega)
      omega
  have hlpi : (streakleLockedPattern s).getD i ' '
      = (ts.getD s.currentIndex []).getD i ' ' := by
    rw [hlp, lockOuter_getD _ _ i ((ts.getD s.currentIndex []).getD i ' ') ' ' hallrows]
    · rw [if_pos ?_]
      refine ⟨r, by omega, ?_, ?_, ?_⟩
      · rw [hRlen r hr]; exact hi5
      · rw [hRval r hr]; exact hcorr
      · exact List.ne_nil_of_length_pos (by omega)
    · intro row hrow
      rw [List.length_replicate]
      have := hRlen row (by omega)
      omega
  have hrawne : raw.getD i '?' ≠ (ts.getD s.currentIndex []).getD i ' ' := by
    rw [← hX]
    exact hdiff
  have hviol : streakleLockViolation s raw = true := by
    show (decide ((streakleLockedPattern s).length = 5)
      && (List.range (streakleLockedPattern s).length).any
        (fun k => !decide ((streakleLockedPattern s).getD k ' ' = '_')
          && !decide (raw.getD k '?' = (streakleLockedPattern s).getD k ' '))) = true
    rw [Bool.and_eq_true]
    refine ⟨by rw [hlplen]; exact decide_eq_true rfl, ?_⟩
    rw [List.any_eq_true]
    refine ⟨i, List.mem_range.mpr (by rw [hlplen]; exact hi5), ?_⟩
    rw [hlpi, decide_eq_false hXne, decide_eq_false hrawne]
    rfl
  rw [handleStreakleSubmit_some wordSet raw s ts hts]
  have hcore : handleStreakleSubmitCore wordSet raw s ts = s
      ∨ handleStreakleSubmitCore wordSet raw s ts = { s with done := true } := by
    unfold handleStreakleSubmitCore
    split_ifs <;>
      first
        | exact Or.inl rfl
        | exact Or.inr rfl
        | exact absurd hviol (by assumption)
  rcases hcore with hcore | hcore <;> rw [hcore] <;> exact ⟨rfl, rfl, rfl, rfl⟩


/- Concrete Streakle state for the C2 witness: targets CRANE, SLATE,
   GHOST; the auto-played starting guess CHIRP scored correct at
   position 0 of the active target CRANE, locking position 0 to C. -/
def c2DemoTargets : List (List Char) :=
  [['C','R','A','N','E'], ['S','L','A','T','E'], ['G','H','O','S','T']]

def c2DemoState : StreakleState :=
  { targets := some c2DemoTargets, currentIndex := 0,
    guesses := [['C','H','I','R','P']],
    results := computeStreakleResults [['C','H','I','R','P']] c2DemoTargets,
    solved := [false, false, false], done := false }

theorem C2_witness :
    ((scoreWordleGuess (c2DemoState.guesses.getD 0 [])
        (c2DemoTargets.getD c2DemoState.currentIndex [])).getD 0 Score.absent
      = Score.correct)
    ∧ (['S','L','A','T','E'] : List Char).getD 0 '?'
        ≠ (c2DemoState.guesses.getD 0 []).getD 0 '?'
    ∧ ((handleStreakleSubmit [['S','L','A','T','E']] ['S','L','A','T','E']
          c2DemoState).guesses = c2DemoState.guesses
      ∧ (handleStreakleSubmit [['S','L','A','T','E']] ['S','L','A','T','E']
          c2DemoState).results = c2DemoState.results
      ∧ (handleStreakleSubmit [['S','L','A','T','E']] ['S','L','A','T','E']
          c2DemoState).solved = c2DemoState.solved
      ∧ (handleStreakleSubmit [['S','L','A','T','E']] ['S','L','A','T','E']
          c2DemoState).currentIndex = c2DemoState.currentIndex) :=
  ⟨by decide, by decide,
   C2_streakle_lock [['S','L','A','T','E']] c2DemoState c2DemoTargets
     ['S','L','A','T','E'] 0 0 rfl rfl (by decide) (by decide) (by decide)
     (by decide) rfl (by decide) (by decide) (by decide)⟩

/- ---------- Pattern generator (C6, C7) ---------- -/

/- matchesPattern, App.tsx lines 34-44: a word matches when it has the
   pattern length and agrees with every non-wildcard slot. -/
def matchesPattern (word patternArr : List Char) : Bool :=
  decide (word.length = patternArr.length) &&
    (word.zip patternArr).all (fun p => decide (p.2 = '_') || decide (p.1 = p.2))

/- The candidate second positions of one search attempt: distinct from
   and non-adjacent to `first` (App.tsx lines 61-66; the distinctness
   check is subsumed by the distance check). -/
def patternCandidates (wordLen first : Nat) : List Nat :=
  (List.range wordLen).filter (fun i => decide (first + 2 ≤ i) || decide (i + 2 ≤ first))

/- The pattern built by one attempt of generateTwoLetterPattern
   (App.tsx lines 56-76), parameterized by the already reduced random
   draws: `bi` indexes the base word, `fi` is the first fixed position,
   `si` indexes the candidate list; `none` when there is no candidate
   second position (the loop then continues).  The constants
   MIN_MATCHES = 3, MAX_MATCHES = 15 and MAX_PATTERN_ATTEMPTS = 5000
   (App.tsx lines 18-20) are inlined below. -/
def attemptPattern (words : List (List Char)) (bi fi si : Nat) : Option (List Char) :=
  let wordLen := (words.headD []).length
  let base := words.getD bi []
  let cands := patternCandidates wordLen fi
  if cands.isEmpty then none
  else
    let second := cands.getD si 0
    some (jsSet (jsSet (List.replicate wordLen '_') fi (base.getD fi '?'))
      second (base.getD second '?'))

def attemptMatchCount (words : List (List Char)) (bi fi si : Nat) : Nat :=
  match attemptPattern words bi fi si with
  | none => 0
  | some pat => (words.filter (fun w => matchesPattern w pat)).length

/- One iteration's attempt with the random draws of iteration `i`:
   base index, first position and candidate index are each obtained
   from an oracle reduced modulo the respective size (Math.random). -/
def loopAttempt (words : List (List Char)) (rhoB rhoF rhoS : Nat → Nat)
    (i : Nat) : Option (List Char) :=
  let wordLen := (words.headD []).length
  let fi := rhoF i % wordLen
  let cands := patternCandidates wordLen fi
  attemptPattern words (rhoB i % words.length) fi (rhoS i % cands.length)

def natDist (a b : Nat) : Nat := max a b - min a b

/- Last resort of generateTwoLetterPattern, App.tsx lines 112-121:
   fix the first word's first letter and, when the word length exceeds
   2, its last letter. -/
def lastResortPattern (words : List (List Char)) : List Char :=
  let base := words.headD []
  let wordLen := base.length
  let patternArr0 := jsSet (List.replicate wordLen '_') 0 (base.getD 0 '?')
  if 2 < wordLen then jsSet patternArr0 (wordLen - 1) (base.getD (wordLen - 1) '?')
  else patternArr0

def lastResortResult (words : List (List Char)) : List Char × List (List Char) :=
  (lastResortPattern words,
   words.filter (fun w => matchesPattern w (lastResortPattern words)))

/- The bounded attempt loop of generateTwoLetterPattern (App.tsx lines
   55-121): accept a match count in [3, 15] immediately; otherwise track
   the fallback with count ≥ 2 whose count is closest to 9 = (3+15)/2,
   first seen winning ties; after the budget, return the fallback, or
   the last resort when none was recorded. -/
def generatePatternLoop (words : List (List Char)) (rhoB rhoF rhoS : Nat → Nat) :
    Nat → Nat → Option (List Char × List (List Char)) → List Char × List (List Char)
  | _, 0, fallback =>
    match fallback with
    | some fb => fb
    | none => lastResortResult words
  | i, fuel + 1, fallback =>
    match loopAttempt words rhoB rhoF rhoS i with
    | none => generatePatternLoop words rhoB rhoF rhoS (i + 1) fuel fallback
    | some patternArr =>
      let ms := words.filter (fun w => matchesPattern w patternArr)
      let count := ms.length
      if 3 ≤ count ∧ count ≤ 15 then (patternArr, ms)
      else
        let fallback2 :=
          if 2 ≤ count then
            match fallback with
            | none => some (patternArr, ms)
            | some fb =>
              if natDist count 9 < natDist fb.2.length 9 then some (patternArr, ms)
              else some fb
          else fallback
        generatePatternLoop words rhoB rhoF rhoS (i + 1) fuel fallback2

/- generateTwoLetterPattern, App.tsx lines 46-122. -/
def generateTwoLetterPattern (words : List (List Char)) (rhoB rhoF rhoS : Nat → Nat) :
    List Char × List (List Char) :=
  if words.isEmpty then ([], [])
  else generatePatternLoop words rhoB rhoF rhoS 0 5000 none

/- A pattern with exactly two concrete slots at non-adjacent positions. -/
def TwoConcreteNonAdjacent (pat : List Char) : Prop :=
  ∃ i < pat.length, ∃ j < pat.length, i + 1 < j
    ∧ pat.getD i ' ' ≠ '_' ∧ pat.getD j ' ' ≠ '_'
    ∧ ∀ k < pat.length, k ≠ i → k ≠ j → pat.getD k ' ' = '_'

theorem headD_mem (words : List (List Char)) (hne : words ≠ []) :
    words.headD [] ∈ words := by
  cases words with
  | nil => exact absurd rfl hne
  | cons w ws => exact List.mem_cons_self w ws

theorem replicate_getD (n k : Nat) (c d : Char) (hk : k < n) :
    (List.replicate n c).getD k d = c := by
  rw [List.getD_eq_getElem?_getD, List.getElem?_replicate, if_pos hk]
  rfl

/- A pattern obtained by fixing two in-range, non-adjacent positions of
   an all-wildcard template to non-wildcard letters. -/
theorem twoSet_good (L a b : Nat) (ca cb : Char) (ha : a < L) (hb : b < L)
    (hab : a + 2 ≤ b ∨ b + 2 ≤ a) (hca : ca ≠ '_') (hcb : cb ≠ '_') :
    TwoConcreteNonAdjacent (jsSet (jsSet (List.replicate L '_') a ca) b cb)
    ∧ (jsSet (jsSet (List.replicate L '_') a ca) b cb).length = L := by
  have hrep : (List.replicate L '_').length = L := List.length_replicate L '_'
  have hlen1 : (jsSet (List.replicate L '_') a ca).length = L := by
    rw [jsSet_length _ _ _ (by rw [hrep]; exact ha), hrep]
  have hlen2 : (jsSet (jsSet (List.replicate L '_') a ca) b cb).length = L := by
    rw [jsSet_length _ _ _ (by rw [hlen1]; exact hb), hlen1]
  have hgetb : (jsSet (jsSet (List.replicate L '_') a ca) b cb).getD b ' ' = cb :=
    jsSet_getD_self _ _ _ (by rw [hlen1]; exact hb) ' '
  have hgeta : (jsSet (jsSet (List.replicate L '_') a ca) b cb).getD a ' ' = ca := by
    rw [jsSet_getD_ne _ _ _ _ (by rw [hlen1]; exact hb) (by omega) ' ',
      jsSet_getD_self _ _ _ (by rw [hrep]; exact ha) ' ']
  have hother : ∀ k < L, k ≠ a → k ≠ b →
      (jsSet (jsSet (List.replicate L '_') a ca) b cb).getD k ' ' = '_' := by
    intro k hk hka hkb
    rw [jsSet_getD_ne _ _ _ _ (by rw [hlen1]; exact hb) (fun hh => hkb hh.symm) ' ',
      jsSet_getD_ne _ _ _ _ (by rw [hrep]; exact ha) (fun hh => hka hh.symm) ' ',
      replicate_getD L k '_' ' ' hk]
  refine ⟨?_, hlen2⟩
  rcases hab with hab | hab
  · exact ⟨a, by rw [hlen2]; exact ha, b, by rw [hlen2]; exact hb, by omega,
      by rw [hgeta]; exact hca, by rw [hgetb]; exact hcb,
      fun k hk hka hkb => hother k (by rw [hlen2] at hk; exact hk) hka hkb⟩
  · exact ⟨b, by rw [hlen2]; exact hb, a, by rw [hlen2]; exact ha, by omega,
      by rw [hgetb]; exact hcb, by rw [hgeta]; exact hca,
      fun k hk hkb hka => hother k (by rw [hlen2] at hk; exact hk) hka hkb⟩

theorem attemptPattern_good (words : List (List Char)) (L : Nat) (bi fi si : Nat)
    (hne : words ≠ []) (hlen : ∀ w ∈ words, w.length = L) (hL : 3 ≤ L)
    (hch : ∀ w ∈ words, ∀ ch ∈ w, ch ≠ '_')
    (hbi : bi < words.length) (hfi : fi < L)
    (hsi : si < (patternCandidates L fi).length)
    (pat : List Char) (hp : attemptPattern words bi fi si = some pat) :
    TwoConcreteNonAdjacent pat ∧ pat.length = L := by
  have hwl : (words.headD []).length = L := hlen _ (headD_mem words hne)
  have hbase : words.getD bi [] ∈ words := getD_mem_of_lt words bi [] hbi
  have hbaselen : (words.getD bi []).length = L := hlen _ hbase
  unfold attemptPattern at hp
  rw [hwl] at hp
  rw [if_neg (by
    intro hempty
    rw [List.isEmpty_iff] at hempty
    rw [hempty] at hsi
    exact Nat.not_lt_zero si hsi)] at hp
  have hsecond : (patternCandidates L fi).getD si 0 ∈ patternCandidates L fi :=
    getD_mem_of_lt _ si 0 hsi
  rw [patternCandidates, List.mem_filter, List.mem_range] at hsecond
  obtain ⟨hslt, hcond⟩ := hsecond
  have hcond2 : fi + 2 ≤ (patternCandidates L fi).getD si 0
      ∨ (patternCandidates L fi).getD si 0 + 2 ≤ fi := by
    rcases Bool.or_eq_true_iff.mp hcond with h | h
    · exact Or.inl (of_decide_eq_true h)
    · exact Or.inr (of_decide_eq_true h)
  obtain rfl : jsSet (jsSet (List.replicate L '_') fi
        ((words.getD bi []).getD fi '?'))
      ((patternCandidates L fi).getD si 0)
      ((words.getD bi []).getD ((patternCandidates L fi).getD si 0) '?') = pat :=
    Option.some.inj hp
  exact twoSet_good L fi ((patternCandidates L fi).getD si 0) _ _ hfi hslt hcond2
    (hch _ hbase _ (getD_mem_of_lt _ fi '?' (by rw [hbaselen]; exact hfi)))
    (hch _ hbase _ (getD_mem_of_lt _ _ '?' (by rw [hbaselen]; exact hslt)))

theorem lastResortResult_good (words : List (List Char)) (L : Nat)
    (hne : words ≠ []) (hlen : ∀ w ∈ words, w.length = L) (hL : 3 ≤ L)
    (hch : ∀ w ∈ words, ∀ ch ∈ w, ch ≠ '_') :
    TwoConcreteNonAdjacent (lastResortResult words).1
    ∧ (lastResortResult words).1.length = L := by
  have hwl : (words.headD []).length = L := hlen _ (headD_mem words hne)
  show TwoConcreteNonAdjacent (lastResortPattern words)
    ∧ (lastResortPattern words).length = L
  simp only [lastResortPattern]
  rw [hwl]
  rw [if_pos (by omega : 2 < L)]
  exact twoSet_good L 0 (L - 1) _ _ (by omega) (by omega) (Or.inl (by omega))
    (hch _ (headD_mem words hne) _ (getD_mem_of_lt _ 0 '?' (by rw [hwl]; omega)))
    (hch _ (headD_mem words hne) _
      (getD_mem_of_lt _ (L - 1) '?' (by rw [hwl]; omega)))

theorem loopAttempt_good (words : List (List Char)) (L : Nat)
    (rhoB rhoF rhoS : Nat → Nat) (i : Nat)
    (hne : words ≠ []) (hlen : ∀ w ∈ words, w.length = L) (hL : 3 ≤ L)
    (hch : ∀ w ∈ words, ∀ ch ∈ w, ch ≠ '_')
    (pat : List Char) (hp : loopAttempt words rhoB rhoF rhoS i = some pat) :
    TwoConcreteNonAdjacent pat ∧ pat.length = L := by
  have hwl : (words.headD []).length = L := hlen _ (headD_mem words hne)
  unfold loopAttempt at hp
  rw [hwl] at hp
  have hwpos : 0 < words.length := List.length_pos.mpr hne
  have hcne : ¬ (patternCandidates L (rhoF i % L)).isEmpty = true := by
    intro hempty
    unfold attemptPattern at hp
    rw [hwl, if_pos hempty] at hp
    exact Option.noConfusion hp
  have hclen : 0 < (patternCandidates L (rhoF i % L)).length := by
    cases hc : patternCandidates L (rhoF i % L) with
    | nil => rw [hc] at hcne; exact absurd rfl hcne
    | cons x xs => simp
  exact attemptPattern_good words L _ _ _ hne hlen hL hch
    (Nat.mod_lt _ hwpos) (Nat.mod_lt _ (by omega))
    (Nat.mod_lt _ hclen) pat hp

theorem generatePatternLoop_good (words : List (List Char)) (L : Nat)
    (rhoB rhoF rhoS : Nat → Nat)
    (hne : words ≠ []) (hlen : ∀ w ∈ words, w.length = L) (hL : 3 ≤ L)
    (hch : ∀ w ∈ words, ∀ ch ∈ w, ch ≠ '_') :
    ∀ (fuel i : Nat) (fallback : Option (List Char × List (List Char))),
      (∀ fb, fallback = some fb → TwoConcreteNonAdjacent fb.1 ∧ fb.1.length = L) →
      TwoConcreteNonAdjacent (generatePatternLoop words rhoB rhoF rhoS i fuel fallback).1
      ∧ (generatePatternLoop words rhoB rhoF rhoS i fuel fallback).1.length = L := by
  intro fuel
  induction fuel with
  | zero =>
    intro i fallback hfb
    cases fallback with
    | none => exact lastResortResult_good words L hne hlen hL hch
    | some fb => exact hfb fb rfl
  | succ m ih =>
    intro i fallback hfb
    cases hatt : loopAttempt words rhoB rhoF rhoS i with
    | none =>
      simp only [generatePatternLoop, hatt]
      exact ih (i + 1) fallback hfb
    | some pat =>
      have hgood := loopAttempt_good words L rhoB rhoF rhoS i hne hlen hL hch pat hatt
      simp only [generatePatternLoop, hatt]
      by_cases hacc : 3 ≤ (words.filter (fun w => matchesPattern w pat)).length
          ∧ (words.filter (fun w => matchesPattern w pat)).length ≤ 15
      · rw [if_pos hacc]
        exact hgood
      · rw [if_neg hacc]
        apply ih (i + 1)
        intro fb2 hfb2
        by_cases hc2 : 2 ≤ (words.filter (fun w => matchesPattern w pat)).length
        · rw [if_pos hc2] at hfb2
          cases fallback with
          | none =>
            have h3 : some (pat, words.filter (fun w => matchesPattern w pat))
                = some fb2 := hfb2
            obtain rfl := Option.some.inj h3
            exact hgood
          | some fb =>
            have h3 : (if natDist (words.filter (fun w => matchesPattern w pat)).length 9
                  < natDist fb.2.length 9
                then some (pat, words.filter (fun w => matchesPattern w pat))
                else some fb) = some fb2 := hfb2
            by_cases hdist : natDist (words.filter (fun w => matchesPattern w pat)).length 9
                < natDist fb.2.length 9
            · rw [if_pos hdist] at h3
              obtain rfl := Option.some.inj h3
              exact hgood
            · rw [if_neg hdist] at h3
              obtain rfl := Option.some.inj h3
              exact hfb fb rfl
        · rw [if_neg hc2] at hfb2
          exact hfb fb2 hfb2

/-- C6 (amended): for every non-empty corpus of equal-length words whose
common length is at least 3 and whose letters are never the wildcard, the
pattern returned by generateTwoLetterPattern has exactly two concrete
non-wildcard slots whose positions are not adjacent, on the accept path,
the fallback path and the last-resort path alike. -/
theorem C6_pattern_two_slots (words : List (List Char)) (L : Nat)
    (rhoB rhoF rhoS : Nat → Nat) (hne : words ≠ [])
    (hlen : ∀ w ∈ words, w.length = L) (hL : 3 ≤ L)
    (hch : ∀ w ∈ words, ∀ ch ∈ w, ch ≠ '_') :
    TwoConcreteNonAdjacent (generateTwoLetterPattern words rhoB rhoF rhoS).1
    ∧ (generateTwoLetterPattern words rhoB rhoF rhoS).1.length = L := by
  unfold generateTwoLetterPattern
  rw [if_neg (by
    intro hempty
    rw [List.isEmpty_iff] at hempty
    exact hne hempty)]
  exact generatePatternLoop_good words L rhoB rhoF rhoS hne hlen hL hch 5000 0 none
    (fun fb h => Option.noConfusion h)

theorem C6_witness :
    ([['C','A','T']] : List (List Char)) ≠ []
    ∧ (∀ w ∈ ([['C','A','T']] : List (List Char)), w.length = 3)
    ∧ (TwoConcreteNonAdjacent
        (generateTwoLetterPattern [['C','A','T']]
          (fun _ => 0) (fun _ => 0) (fun _ => 0)).1
      ∧ (generateTwoLetterPattern [['C','A','T']]
          (fun _ => 0) (fun _ => 0) (fun _ => 0)).1.length = 3) :=
  ⟨by decide, by decide,
   C6_pattern_two_slots [['C','A','T']] 3 (fun _ => 0) (fun _ => 0) (fun _ => 0)
     (by decide) (by decide) (by decide) (by decide)⟩

/- A corpus on which the bounded search can never record a fallback nor
   accept: every attempt either has no candidate second position or
   matches at most one corpus word. -/
def NoFallbackRun (words : List (List Char)) : Prop :=
  ∀ bi < words.length, ∀ fi < (words.headD []).length,
    ∀ si < (patternCandidates (words.headD []).length fi).length,
      attemptMatchCount words bi fi si ≤ 1

theorem loopAttempt_count_le (words : List (List Char)) (rhoB rhoF rhoS : Nat → Nat)
    (hnf : NoFallbackRun words) (i : Nat) (pat : List Char)
    (hp : loopAttempt words rhoB rhoF rhoS i = some pat) :
    (words.filter (fun w => matchesPattern w pat)).length ≤ 1 := by
  have hcne : ¬ (patternCandidates (words.headD []).length
      (rhoF i % (words.headD []).length)).isEmpty = true := by
    intro hempty
    unfold loopAttempt attemptPattern at hp
    rw [if_pos hempty] at hp
    exact Option.noConfusion hp
  have hclen : 0 < (patternCandidates (words.headD []).length
      (rhoF i % (words.headD []).length)).length := by
    cases hc : patternCandidates (words.headD []).length
        (rhoF i % (words.headD []).length) with
    | nil => rw [hc] at hcne; exact absurd rfl hcne
    | cons x xs => simp
  have hwlpos : 0 < (words.headD []).length := by
    by_contra hz
    have : (words.headD []).length = 0 := by omega
    unfold patternCandidates at hclen
    rw [this] at hclen
    simp at hclen
  have hwpos : 0 < words.length := by
    cases hw : words with
    | nil => rw [hw] at hwlpos; simp at hwlpos
    | cons w ws => simp
  have := hnf (rhoB i % words.length) (Nat.mod_lt _ hwpos)
    (rhoF i % (words.headD []).length) (Nat.mod_lt _ hwlpos)
    (rhoS i % (patternCandidates (words.headD []).length
      (rhoF i % (words.headD []).length)).length) (Nat.mod_lt _ hclen)
  unfold attemptMatchCount at this
  unfold loopAttempt at hp
  rw [hp] at this
  exact this

theorem generatePatternLoop_noFallback (words : List (List Char))
    (rhoB rhoF rhoS : Nat → Nat) (hnf : NoFallbackRun words) :
    ∀ (fuel i : Nat),
      generatePatternLoop words rhoB rhoF rhoS i fuel none = lastResortResult words := by
  intro fuel
  induction fuel with
  | zero => intro i; rfl
  | succ m ih =>
    intro i
    cases hatt : loopAttempt words rhoB rhoF rhoS i with
    | none =>
      simp only [generatePatternLoop, hatt]
      exact ih (i + 1)
    | some pat =>
      have hcount := loopAttempt_count_le words rhoB rhoF rhoS hnf i pat hatt
      simp only [generatePatternLoop, hatt]
      rw [if_neg (by omega), if_neg (by omega)]
      exact ih (i + 1)

/-- C7 (amended): on every non-empty corpus on which the bounded search can
record no fallback (every attempt matches at most one word), the function
returns the deterministic last-resort result built from the first corpus
word: its first letter is fixed, its last letter is fixed exactly when the
word length exceeds 2, every other slot is a wildcard, and the match list is
the corpus words matching that pattern. -/
theorem C7_no_fallback_last_resort (words : List (List Char))
    (rhoB rhoF rhoS : Nat → Nat) (hne : words ≠ []) (hnf : NoFallbackRun words) :
    generateTwoLetterPattern words rhoB rhoF rhoS = lastResortResult words
    ∧ ((lastResortResult words).1).getD 0 ' ' = (words.headD []).getD 0 '?'
    ∧ (2 < (words.headD []).length →
        ((lastResortResult words).1).getD ((words.headD []).length - 1) ' '
          = (words.headD []).getD ((words.headD []).length - 1) '?')
    ∧ (∀ k, k < (words.headD []).length → k ≠ 0 →
        (2 < (words.headD []).length → k ≠ (words.headD []).length - 1) →
        ((lastResortResult words).1).getD k ' ' = '_')
    ∧ (lastResortResult words).2
        = words.filter (fun w => matchesPattern w (lastResortResult words).1) := by
  refine ⟨?_, ?_⟩
  · unfold generateTwoLetterPattern
    rw [if_neg (by
      intro hempty
      rw [List.isEmpty_iff] at hempty
      exact hne hempty)]
    exact generatePatternLoop_noFallback words rhoB rhoF rhoS hnf 5000 0
  · show (lastResortPattern words).getD 0 ' ' = (words.headD []).getD 0 '?'
      ∧ (2 < (words.headD []).length →
          (lastResortPattern words).getD ((words.headD []).length - 1) ' '
            = (words.headD []).getD ((words.headD []).length - 1) '?')
      ∧ (∀ k, k < (words.headD []).length → k ≠ 0 →
          (2 < (words.headD []).length → k ≠ (words.headD []).length - 1) →
          (lastResortPattern words).getD k ' ' = '_')
      ∧ (lastResortResult words).2
          = words.filter (fun w => matchesPattern w (lastResortResult words).1)
    simp only [lastResortPattern]
    by_cases hL : 2 < (words.headD []).length
    · rw [if_pos hL]
      have hrep : (List.replicate (words.headD []).length '_').length
          = (words.headD []).length := List.length_replicate _ '_'
      have hlen1 : (jsSet (List.replicate (words.headD []).length '_') 0
          ((words.headD []).getD 0 '?')).length = (words.headD []).length := by
        rw [jsSet_length _ _ _ (by omega), hrep]
      refine ⟨?_, fun _ => ?_, fun k hk hk0 hkl => ?_, rfl⟩
      · rw [jsSet_getD_ne _ _ _ _ (by omega) (by omega) ' ',
          jsSet_getD_self _ _ _ (by omega) ' ']
      · rw [jsSet_getD_self _ _ _ (by omega) ' ']
      · rw [jsSet_getD_ne _ _ _ _ (by omega) (fun hh => (hkl hL) hh.symm) ' ',
          jsSet_getD_ne _ _ _ _ (by omega) (fun hh => hk0 hh.symm) ' ',
          replicate_getD _ k '_' ' ' hk]
    · rw [if_neg hL]
      have hrep : (List.replicate (words.headD []).length '_').length
          = (words.headD []).length := List.length_replicate _ '_'
      refine ⟨?_, fun hcon => absurd hcon hL, fun k hk hk0 _ => ?_, rfl⟩
      · by_cases h0 : 0 < (words.headD []).length
        · rw [jsSet_getD_self _ _ _ (by omega) ' ']
        · have hnil : words.headD [] = [] := by
            cases hw : words.headD [] with
            | nil => rfl
            | cons c cs => rw [hw] at h0; simp at h0
          rw [hnil]
          rfl
      · rw [jsSet_getD_ne _ _ _ _ (by omega) (fun hh => hk0 hh.symm) ' ',
          replicate_getD _ k '_' ' ' hk]

theorem C7_counterexample :
    NoFallbackRun [['X','Y']]
    ∧ (generateTwoLetterPattern [['X','Y']]
        (fun _ => 0) (fun _ => 0) (fun _ => 0)).1.getD 1 ' ' = '_'
    ∧ (['X','Y'] : List Char).getD 1 '?' = 'Y'
    ∧ ('_' : Char) ≠ 'Y' := by
  have hnf : NoFallbackRun [['X','Y']] := by
    unfold NoFallbackRun
    decide
  refine ⟨hnf, ?_, by decide, by decide⟩
  have h2 : generateTwoLetterPattern [['X','Y']] (fun _ => 0) (fun _ => 0) (fun _ => 0)
      = lastResortResult [['X','Y']] := by
    unfold generateTwoLetterPattern
    rw [if_neg (by decide)]
    exact generatePatternLoop_noFallback _ _ _ _ hnf 5000 0
  rw [h2]
  decide

theorem C6_counterexample :
    ([['A','B']] : List (List Char)) ≠ []
    ∧ (∀ w ∈ ([['A','B']] : List (List Char)), w.length = 2)
    ∧ ¬ TwoConcreteNonAdjacent
        (generateTwoLetterPattern [['A','B']]
          (fun _ => 0) (fun _ => 0) (fun _ => 0)).1 := by
  refine ⟨by decide, by decide, ?_⟩
  have hnf : NoFallbackRun [['A','B']] := by
    unfold NoFallbackRun
    decide
  have h2 : generateTwoLetterPattern [['A','B']] (fun _ => 0) (fun _ => 0) (fun _ => 0)
      = lastResortResult [['A','B']] := by
    unfold generateTwoLetterPattern
    rw [if_neg (by decide)]
    exact generatePatternLoop_noFallback _ _ _ _ hnf 5000 0
  rw [h2]
  unfold TwoConcreteNonAdjacent
  decide

/- Witness for the amended C7 on a concrete degenerate corpus: a single
   two-letter word records no fallback, and the last resort fixes only
   the first letter. -/
theorem C7_witness :
    ([['Q','Z']] : List (List Char)) ≠ []
    ∧ NoFallbackRun [['Q','Z']]
    ∧ generateTwoLetterPattern [['Q','Z']] (fun _ => 1) (fun _ => 1) (fun _ => 1)
        = lastResortResult [['Q','Z']] := by
  have hnf : NoFallbackRun [['Q','Z']] := by
    unfold NoFallbackRun
    decide
  exact ⟨by decide, hnf,
    (C7_no_fallback_last_resort [['Q','Z']] (fun _ => 1) (fun _ => 1) (fun _ => 1)
      (by decide) hnf).1⟩

/- ---------- Spelling Bee builder (C5) ---------- -/

/- uniqueLetters, App.tsx lines 165-175: first-occurrence dedup. -/
def uniqueLetters (word : List Char) : List Char :=
  word.foldl (fun acc ch => if acc.contains ch then acc else acc ++ [ch]) []

/- shuffleArray, App.tsx lines 177-184: Fisher-Yates, one random draw
   per loop index i from length - 1 down to 1 (oracle indexed by i). -/
def shuffleSwap (l : List Char) (i j : Nat) : List Char :=
  let a := l.getD i '?'
  let b := l.getD j '?'
  (l.set i b).set j a

def shuffleAux (rho : Nat → Nat) : List Char → Nat → List Char
  | l, 0 => l
  | l, Nat.succ k => shuffleAux rho (shuffleSwap l (k + 1) (rho (k + 1) % (k + 2))) k

def shuffleArray (rho : Nat → Nat) (arr : List Char) : List Char :=
  shuffleAux rho arr (arr.length - 1)

/- isBeeWord, App.tsx lines 194-201, and isPangram, lines 203-208 (the
   JS letter Set is the list of the 7 shuffled letters). -/
def isBeeWord (word : List Char) (letters : List Char) (center : Char) : Bool :=
  decide (4 ≤ word.length) && word.contains center
    && word.all (fun ch => letters.contains ch)

def isPangram (word : List Char) (letters : List Char) : Bool :=
  letters.all (fun l => word.contains l)

/- buildBeePuzzle, App.tsx lines 210-250.  Candidate base words have
   exactly 7 distinct letters and length at least 7 (lines 211-213). -/
def pangramCandidates (dictionary : List (List Char)) : List (List Char) :=
  dictionary.filter
    (fun w => decide ((uniqueLetters w).length = 7) && decide (7 ≤ w.length))

structure BeeAttempt where
  letters : List Char
  center : Char
  valid : List (List Char)
  pangrams : List (List Char)
deriving DecidableEq, Repr

/- One attempt of the search loop (App.tsx lines 225-239), with the
   random draws of iteration `i`: base pick, shuffle draws, center pick. -/
def beeAttempt (dictionary : List (List Char)) (rhoBase : Nat → Nat)
    (rhoShuffle : Nat → Nat → Nat) (rhoCenter : Nat → Nat) (i : Nat) : BeeAttempt :=
  let cands := pangramCandidates dictionary
  let base := cands.getD (rhoBase i % cands.length) []
  let letters := (uniqueLetters base).take 7
  let shuffled := shuffleArray (rhoShuffle i) letters
  let center := shuffled.getD (rhoCenter i % shuffled.length) '?'
  let valid := dictionary.filter (fun w => isBeeWord w shuffled center)
  let pangrams := valid.filter (fun w => isPangram w shuffled)
  ⟨shuffled, center, valid, pangrams⟩

/- The acceptance test of an attempt: within the BEE_MAX_WORDS = 100
   density cap (App.tsx line 22; denser attempts are skipped before the
   test), at least 12 valid words and at least one pangram (line 244). -/
def beeAccept (a : BeeAttempt) : Prop :=
  a.valid.length ≤ 100 ∧ 12 ≤ a.valid.length ∧ 0 < a.pangrams.length

/- The attempt loop of buildBeePuzzle (App.tsx lines 224-249): break at
   once when there is no candidate base word (JS `if (!base) break`);
   skip attempts beyond the density cap; track the best attempt by
   strictly larger valid-word count; return the current attempt the
   moment it passes the acceptance test; return `best` when the 600
   attempts are exhausted. -/
def buildBeePuzzleLoop (dictionary : List (List Char)) (rhoBase : Nat → Nat)
    (rhoShuffle : Nat → Nat → Nat) (rhoCenter : Nat → Nat) :
    Nat → Nat → Option BeeAttempt → Option BeeAttempt
  | _, 0, best => best
  | i, fuel + 1, best =>
    if (pangramCandidates dictionary).isEmpty then best
    else
      let current := beeAttempt dictionary rhoBase rhoShuffle rhoCenter i
      if 100 < current.valid.length then
        buildBeePuzzleLoop dictionary rhoBase rhoShuffle rhoCenter (i + 1) fuel best
      else
        let best2 :=
          match best with
          | none => some current
          | some b =>
            if b.valid.length < current.valid.length then some current else some b
        if 12 ≤ current.valid.length ∧ 0 < current.pangrams.length then some current
        else buildBeePuzzleLoop dictionary rhoBase rhoShuffle rhoCenter (i + 1) fuel best2

def buildBeePuzzle (dictionary : List (List Char)) (rhoBase : Nat → Nat)
    (rhoShuffle : Nat → Nat → Nat) (rhoCenter : Nat → Nat) : Option BeeAttempt :=
  buildBeePuzzleLoop dictionary rhoBase rhoShuffle rhoCenter 0 600 none

/- The best-attempt accumulator step, as carried out by one non-accepted
   loop iteration. -/
def beeBestUpdate (b : Option BeeAttempt) (a : BeeAttempt) : Option BeeAttempt :=
  if 100 < a.valid.length then b
  else
    match b with
    | none => some a
    | some b0 => if b0.valid.length < a.valid.length then some a else some b0

theorem beeBestUpdate_none (a : BeeAttempt) :
    beeBestUpdate none a = if 100 < a.valid.length then none else some a := by
  unfold beeBestUpdate
  by_cases hcap : 100 < a.valid.length
  · rw [if_pos hcap]
  · rw [if_neg hcap]

theorem beeBestUpdate_some (b0 : BeeAttempt) (a : BeeAttempt) :
    beeBestUpdate (some b0) a
      = if 100 < a.valid.length then some b0
        else if b0.valid.length < a.valid.length then some a else some b0 := by
  unfold beeBestUpdate
  by_cases hcap : 100 < a.valid.length
  · rw [if_pos hcap]
  · rw [if_neg hcap]

theorem beeLoop_no_candidates (dictionary : List (List Char)) (rhoBase : Nat → Nat)
    (rhoShuffle : Nat → Nat → Nat) (rhoCenter : Nat → Nat)
    (h : pangramCandidates dictionary = []) :
    ∀ (fuel i : Nat) (best : Option BeeAttempt),
      buildBeePuzzleLoop dictionary rhoBase rhoShuffle rhoCenter i fuel best = best := by
  intro fuel
  induction fuel with
  | zero => intro i best; rfl
  | succ m ih =>
    intro i best
    simp only [buildBeePuzzleLoop]
    rw [if_pos (by rw [h]; rfl)]

theorem beeLoop_accept (dictionary : List (List Char)) (rhoBase : Nat → Nat)
    (rhoShuffle : Nat → Nat → Nat) (rhoCenter : Nat → Nat)
    (hc : pangramCandidates dictionary ≠ []) :
    ∀ (fuel i : Nat) (best : Option BeeAttempt) (k : Nat), i ≤ k → k < i + fuel →
      beeAccept (beeAttempt dictionary rhoBase rhoShuffle rhoCenter k) →
      (∀ j, i ≤ j → j < k →
        ¬ beeAccept (beeAttempt dictionary rhoBase rhoShuffle rhoCenter j)) →
      buildBeePuzzleLoop dictionary rhoBase rhoShuffle rhoCenter i fuel best
        = some (beeAttempt dictionary rhoBase rhoShuffle rhoCenter k) := by
  intro fuel
  induction fuel with
  | zero => intro i best k hik hklt _ _; omega
  | succ m ih =>
    intro i best k hik hklt hacc hmin
    have hemp : ¬ (pangramCandidates dictionary).isEmpty = true := by
      intro hh
      exact hc (List.isEmpty_iff.mp hh)
    simp only [buildBeePuzzleLoop]
    rw [if_neg hemp]
    by_cases hk : k = i
    · subst hk
      unfold beeAccept at hacc
      rw [if_neg (by omega)]
      rw [if_pos ⟨hacc.2.1, hacc.2.2⟩]
    · have hik2 : i < k := by omega
      have hnacc := hmin i (Nat.le_refl i) hik2
      by_cases hcap : 100
          < (beeAttempt dictionary rhoBase rhoShuffle rhoCenter i).valid.length
      · rw [if_pos hcap]
        exact ih (i + 1) best k (by omega) (by omega) hacc
          (fun j h1 h2 => hmin j (by omega) h2)
      · rw [if_neg hcap]
        rw [if_neg (by
          intro hh
          exact hnacc ⟨by omega, hh⟩)]
        exact ih (i + 1) _ k (by omega) (by omega) hacc
          (fun j h1 h2 => hmin j (by omega) h2)

theorem beeLoop_no_accept_eq_fold (dictionary : List (List Char)) (rhoBase : Nat → Nat)
    (rhoShuffle : Nat → Nat → Nat) (rhoCenter : Nat → Nat)
    (hc : pangramCandidates dictionary ≠ []) :
    ∀ (fuel i : Nat) (best : Option BeeAttempt),
      (∀ j, i ≤ j → j < i + fuel →
        ¬ beeAccept (beeAttempt dictionary rhoBase rhoShuffle rhoCenter j)) →
      buildBeePuzzleLoop dictionary rhoBase rhoShuffle rhoCenter i fuel best
        = (List.range' i fuel).foldl
            (fun b k => beeBestUpdate b (beeAttempt dictionary rhoBase rhoShuffle rhoCenter k))
            best := by
  intro fuel
  induction fuel with
  | zero => intro i best _; rfl
  | succ m ih =>
    intro i best hno
    have hemp : ¬ (pangramCandidates dictionary).isEmpty = true := by
      intro hh
      exact hc (List.isEmpty_iff.mp hh)
    simp only [buildBeePuzzleLoop]
    rw [if_neg hemp, List.range'_succ, List.foldl_cons]
    by_cases hcap : 100
        < (beeAttempt dictionary rhoBase rhoShuffle rhoCenter i).valid.length
    · rw [if_pos hcap]
      have hupd : beeBestUpdate best (beeAttempt dictionary rhoBase rhoShuffle rhoCenter i)
          = best := by
        unfold beeBestUpdate
        rw [if_pos hcap]
      rw [hupd]
      exact ih (i + 1) best (fun j h1 h2 => hno j (by omega) (by omega))
    · have hnacc := hno i (Nat.le_refl i) (by omega)
      unfold beeAccept at hnacc
      rw [if_neg hcap, if_neg (by
        intro hh
        exact hnacc ⟨by omega, hh⟩)]
      have hupd : beeBestUpdate best (beeAttempt dictionary rhoBase rhoShuffle rhoCenter i)
          = (match best with
            | none => some (beeAttempt dictionary rhoBase rhoShuffle rhoCenter i)
            | some b =>
              if b.valid.length
                  < (beeAttempt dictionary rhoBase rhoShuffle rhoCenter i).valid.length then
                some (beeAttempt dictionary rhoBase rhoShuffle rhoCenter i)
              else some b) := by
        unfold beeBestUpdate
        rw [if_neg hcap]
      rw [← hupd]
      exact ih (i + 1) _ (fun j h1 h2 => hno j (by omega) (by omega))

theorem beeFold_max (A : Nat → BeeAttempt) :
    ∀ (l : List Nat) (b r : Option BeeAttempt),
      (l.foldl (fun b k => beeBestUpdate b (A k)) b) = r →
      ((r = b ∧ ∀ k ∈ l, (A k).valid.length ≤ 100 →
          ∃ b0, b = some b0 ∧ (A k).valid.length ≤ b0.valid.length)
        ∨ (∃ m ∈ l, (A m).valid.length ≤ 100 ∧ r = some (A m)
            ∧ (∀ k ∈ l, (A k).valid.length ≤ 100 →
                (A k).valid.length ≤ (A m).valid.length)
            ∧ (∀ b0, b = some b0 → b0.valid.length ≤ (A m).valid.length))) := by
  intro l
  induction l with
  | nil =>
    intro b r hr
    exact Or.inl ⟨hr.symm, fun k hk => absurd hk (List.not_mem_nil k)⟩
  | cons k0 rest ih =>
    intro b r hr
    rw [List.foldl_cons] at hr
    by_cases hcap : 100 < (A k0).valid.length
    · have hstep : beeBestUpdate b (A k0) = b := by
        unfold beeBestUpdate
        rw [if_pos hcap]
      rw [hstep] at hr
      rcases ih b r hr with ⟨h1, h2⟩ | ⟨m, hm, hmcap, hmr, hmax, hb0⟩
      · left
        refine ⟨h1, ?_⟩
        intro k hk hkcap
        rcases List.mem_cons.mp hk with rfl | hk2
        · omega
        · exact h2 k hk2 hkcap
      · right
        refine ⟨m, List.mem_cons_of_mem _ hm, hmcap, hmr, ?_, hb0⟩
        intro k hk hkcap
        rcases List.mem_cons.mp hk with rfl | hk2
        · omega
        · exact hmax k hk2 hkcap
    · cases b with
      | none =>
        have hstep : beeBestUpdate none (A k0) = some (A k0) := by
          rw [beeBestUpdate_none, if_neg hcap]
        rw [hstep] at hr
        rcases ih (some (A k0)) r hr with ⟨h1, h2⟩ | ⟨m, hm, hmcap, hmr, hmax, hb0⟩
        · right
          refine ⟨k0, List.mem_cons_self k0 rest, by omega, by rw [h1], ?_, ?_⟩
          · intro k hk hkcap
            rcases List.mem_cons.mp hk with rfl | hk2
            · exact Nat.le_refl _
            · obtain ⟨b0, hb0eq, hle⟩ := h2 k hk2 hkcap
              obtain rfl := Option.some.inj hb0eq
              exact hle
          · intro b0 hb0eq
            exact Option.noConfusion hb0eq
        · right
          refine ⟨m, List.mem_cons_of_mem _ hm, hmcap, hmr, ?_, ?_⟩
          · intro k hk hkcap
            rcases List.mem_cons.mp hk with rfl | hk2
            · exact hb0 _ rfl
            · exact hmax k hk2 hkcap
          · intro b0 hb0eq
            exact Option.noConfusion hb0eq
      | some b0 =>
        by_cases hlt : b0.valid.length < (A k0).valid.length
        · have hstep : beeBestUpdate (some b0) (A k0) = some (A k0) := by
            rw [beeBestUpdate_some, if_neg hcap, if_pos hlt]
          rw [hstep] at hr
          rcases ih (some (A k0)) r hr with ⟨h1, h2⟩ | ⟨m, hm, hmcap, hmr, hmax, hb2⟩
          · right
            refine ⟨k0, List.mem_cons_self k0 rest, by omega, by rw [h1], ?_, ?_⟩
            · intro k hk hkcap
              rcases List.mem_cons.mp hk with rfl | hk2
              · exact Nat.le_refl _
              · obtain ⟨b1, hb1eq, hle⟩ := h2 k hk2 hkcap
                obtain rfl := Option.some.inj hb1eq
                exact hle
            · intro b1 hb1eq
              obtain rfl := Option.some.inj hb1eq
              omega
          · right
            refine ⟨m, List.mem_cons_of_mem _ hm, hmcap, hmr, ?_, ?_⟩
            · intro k hk hkcap
              rcases List.mem_cons.mp hk with rfl | hk2
              · exact hb2 _ rfl
              · exact hmax k hk2 hkcap
            · intro b1 hb1eq
              obtain rfl := Option.some.inj hb1eq
              have := hb2 _ rfl
              omega
        · have hstep : beeBestUpdate (some b0) (A k0) = some b0 := by
            rw [beeBestUpdate_some, if_neg hcap, if_neg hlt]
          rw [hstep] at hr
          rcases ih (some b0) r hr with ⟨h1, h2⟩ | ⟨m, hm, hmcap, hmr, hmax, hb2⟩
          · left
            refine ⟨h1, ?_⟩
            intro k hk hkcap
            rcases List.mem_cons.mp hk with rfl | hk2
            · exact ⟨b0, rfl, by omega⟩
            · exact h2 k hk2 hkcap
          · right
            refine ⟨m, List.mem_cons_of_mem _ hm, hmcap, hmr, ?_, hb2⟩
            intro k hk hkcap
            rcases List.mem_cons.mp hk with rfl | hk2
            · have := hb2 b0 rfl
              omega
            · exact hmax k hk2 hkcap

/-- C5: buildBeePuzzle returns, within the 600-attempt budget, the first
attempt that is within the 100-word density cap with at least 12 valid words
and at least one pangram; when no attempt passes that acceptance test it
returns an attempt within the density cap of maximal valid-word count; and
it returns null exactly when there is no candidate base word (7 distinct
letters, length at least 7) or no attempt ever satisfied the density cap. -/
theorem C5_bee_builder (dictionary : List (List Char)) (rhoBase : Nat → Nat)
    (rhoShuffle : Nat → Nat → Nat) (rhoCenter : Nat → Nat) :
    (pangramCandidates dictionary = [] →
      buildBeePuzzle dictionary rhoBase rhoShuffle rhoCenter = none)
    ∧ (pangramCandidates dictionary ≠ [] →
      (∀ k, k < 600 →
        beeAccept (beeAttempt dictionary rhoBase rhoShuffle rhoCenter k) →
        (∀ j, j < k →
          ¬ beeAccept (beeAttempt dictionary rhoBase rhoShuffle rhoCenter j)) →
        buildBeePuzzle dictionary rhoBase rhoShuffle rhoCenter
          = some (beeAttempt dictionary rhoBase rhoShuffle rhoCenter k))
      ∧ ((∀ k, k < 600 →
          ¬ beeAccept (beeAttempt dictionary rhoBase rhoShuffle rhoCenter k)) →
        ((∀ k, k < 600 →
            100 < (beeAttempt dictionary rhoBase rhoShuffle rhoCenter k).valid.length) →
          buildBeePuzzle dictionary rhoBase rhoShuffle rhoCenter = none)
        ∧ ((∃ k, k < 600 ∧
            (beeAttempt dictionary rhoBase rhoShuffle rhoCenter k).valid.length ≤ 100) →
          ∃ m, m < 600
            ∧ (beeAttempt dictionary rhoBase rhoShuffle rhoCenter m).valid.length ≤ 100
            ∧ buildBeePuzzle dictionary rhoBase rhoShuffle rhoCenter
                = some (beeAttempt dictionary rhoBase rhoShuffle rhoCenter m)
            ∧ ∀ k, k < 600 →
                (beeAttempt dictionary rhoBase rhoShuffle rhoCenter k).valid.length ≤ 100 →
                (beeAttempt dictionary rhoBase rhoShuffle rhoCenter k).valid.length
                  ≤ (beeAttempt dictionary rhoBase rhoShuffle rhoCenter m).valid.length))) := by
  refine ⟨?_, ?_⟩
  · intro h
    exact beeLoop_no_candidates dictionary rhoBase rhoShuffle rhoCenter h 600 0 none
  · intro hc
    constructor
    · intro k hk hacc hmin
      exact beeLoop_accept dictionary rhoBase rhoShuffle rhoCenter hc 600 0 none k
        (Nat.zero_le k) (by omega) hacc (fun j _ h2 => hmin j h2)
    · intro hnoacc
      have hfold := beeLoop_no_accept_eq_fold dictionary rhoBase rhoShuffle rhoCenter hc
        600 0 none (fun j _ h2 => hnoacc j (by omega))
      have hmax := beeFold_max (beeAttempt dictionary rhoBase rhoShuffle rhoCenter)
        (List.range' 0 600) none
        (buildBeePuzzle dictionary rhoBase rhoShuffle rhoCenter) hfold.symm
      constructor
      · intro hallcap
        rcases hmax with ⟨h1, _⟩ | ⟨m, hm, hmcap, _, _, _⟩
        · exact h1
        · have hm600 : m < 600 := by
            have := List.mem_range'_1.mp hm
            omega
          have := hallcap m hm600
          omega
      · intro hex
        obtain ⟨k, hk600, hkcap⟩ := hex
        rcases hmax with ⟨_, h2⟩ | ⟨m, hm, hmcap, hmr, hmaxx, _⟩
        · obtain ⟨b0, hb0eq, _⟩ := h2 k (List.mem_range'_1.mpr ⟨Nat.zero_le k, by omega⟩) hkcap
          exact Option.noConfusion hb0eq
        · have hm600 : m < 600 := by
            have := List.mem_range'_1.mp hm
            omega
          exact ⟨m, hm600, hmcap, hmr, fun k2 hk2 hk2cap =>
            hmaxx k2 (List.mem_range'_1.mpr ⟨Nat.zero_le k2, by omega⟩) hk2cap⟩

theorem C5_witness :
    pangramCandidates [['A','B','C','D']] = []
    ∧ buildBeePuzzle [['A','B','C','D']] (fun _ => 0) (fun _ _ => 0) (fun _ => 0)
        = none :=
  ⟨by decide,
   (C5_bee_builder [['A','B','C','D']] (fun _ => 0) (fun _ _ => 0) (fun _ => 0)).1
     (by decide)⟩

end WordPuzzles
